import Mathlib

/-!
# A shallow embedding of the gobft consensus core (`bftcore.go`)

This file models the round state machine of the gobft BFT consensus core.
The driver (`Core`) and all its transitions (`enterNewRound`, `enterPropose`,
`enterPrevote`, `enterPrevoteWait`, `enterPrecommit`, `enterPrecommitWait`,
`enterCommit`, `addVote`, `tryAddVote`, `handleTimeout`, ...) are translated
from `bftcore.go`.  The vote-set engine (`VoteSet`, `HeightVoteSet`) lives in
repository files that are not part of the given sources, so those components
are modelled from the specification document (see the doc comments marked
"Modelled from the spec").

Modelling conventions:
* `ProposedData` is an opaque equatable token, modelled as `Nat`; the reserved
  `NilData` value is `0`.
* Go `int` / `int64` become `Int` (overflow is irrelevant to the modelled
  logic: heights and rounds are only compared and incremented).
* Side effects (signing and queueing votes, broadcasting, scheduling
  timeouts, delivering commits) become an explicit `List Emission` returned
  alongside the new state.
* `common.PanicSanity` and nil-pointer dereferences (both fatal in Go) become
  `Except.error`; a transition that panics yields no post-state, matching the
  fact that the Go process aborts.
-/

namespace Gobft

/-- Opaque application data being agreed on (`message.ProposedData`). -/
abbrev ProposedData := Nat

/-- The reserved "vote for nothing" value (`message.NilData`). -/
def NilData : ProposedData := 0

/-- Vote kinds (`message.ProposalType`, `PrevoteType`, `PrecommitType`). -/
inductive VoteType where
  | proposal
  | prevote
  | precommit
deriving DecidableEq

/-- A consensus vote (`message.Vote`): type, height, round, proposed value,
previous committed value binding, signer address and signature. -/
structure Vote where
  vtype : VoteType
  height : Int
  round : Int
  proposed : ProposedData
  prev : ProposedData
  address : Nat
  sig : Nat
deriving DecidableEq

/-- The round steps of the state machine, in their numeric order
(`RoundStepNewHeight` through `RoundStepCommit`). -/
inductive RoundStepType where
  | NewHeight
  | NewRound
  | Propose
  | Prevote
  | PrevoteFetch
  | PrevoteWait
  | Precommit
  | PrecommitFetch
  | PrecommitWait
  | Commit
deriving DecidableEq

/-- Numeric value of a step, giving the order used by the guard comparisons. -/
def RoundStepType.toNat : RoundStepType → Nat
  | .NewHeight => 1
  | .NewRound => 2
  | .Propose => 3
  | .Prevote => 4
  | .PrevoteFetch => 5
  | .PrevoteWait => 6
  | .Precommit => 7
  | .PrecommitFetch => 8
  | .PrecommitWait => 9
  | .Commit => 10

/-- Boolean `a <= b` on round steps (the Go `<=` on the step constants). -/
def RoundStepType.ble (a b : RoundStepType) : Bool :=
  Nat.ble a.toNat b.toNat

/-- Boolean `a < b` on round steps (the Go `<` on the step constants). -/
def RoundStepType.blt (a b : RoundStepType) : Bool :=
  Nat.blt a.toNat b.toNat

/-- Error kinds of the core (`ErrVoteHeightMismatch`, `ErrVoteConflictingVotes`,
`ErrAddingVote`, `ErrInvalidProposer`, `ErrInvalidProposalSignature`, and a
generic vote-set level rejection). -/
inductive BftError where
  | voteHeightMismatch
  | conflictingVotes
  | addingVote
  | invalidProposer
  | invalidProposalSignature
  | invalidVote
deriving DecidableEq

/-- Application state handed over by the committee (`message.AppState`). -/
structure AppState where
  LastHeight : Int
  LastProposedData : ProposedData
deriving DecidableEq

/-- A commit record (`message.Commit`), reduced to the fields the core
inspects. -/
structure CommitRec where
  height : Int
  round : Int
  proposedData : ProposedData
  commitTime : Nat
deriving DecidableEq

/-- Modelled from the spec: `VoteSet` (spec section 4.1) accumulates the votes
of one `(height, round, type)` over a fixed committee.  The committee is a
list of `(address, votingPower)` pairs and `votes` maps each signer that has
voted to the value it voted for.  The implementation file of `VoteSet` is not
among the given sources. -/
structure VoteSet where
  height : Int
  round : Int
  vtype : VoteType
  committee : List (Nat × Nat)
  votes : List (Nat × ProposedData)

namespace VoteSet

/-- Total voting power of the committee. -/
def total (vs : VoteSet) : Nat :=
  (vs.committee.map (fun m => m.2)).sum

/-- Voting power of an address (0 if it is not a committee member). -/
def power (vs : VoteSet) (a : Nat) : Nat :=
  match vs.committee.find? (fun m => m.1 == a) with
  | some m => m.2
  | none => 0

/-- Tallied voting power recorded for one proposed value. -/
def tally (vs : VoteSet) (d : ProposedData) : Nat :=
  ((vs.votes.filter (fun e => e.2 == d)).map (fun e => vs.power e.1)).sum

/-- Modelled from the spec: `TwoThirdsMajority()` returns the value whose
tallied power strictly exceeds two thirds of the total committee power, if
one exists. -/
def TwoThirdsMajority (vs : VoteSet) : Option ProposedData :=
  (vs.votes.find? (fun e => Nat.blt (2 * vs.total) (3 * vs.tally e.2))).map
    (fun e => e.2)

/-- Modelled from the spec: `HasTwoThirdsMajority()`. -/
def HasTwoThirdsMajority (vs : VoteSet) : Bool :=
  vs.TwoThirdsMajority.isSome

/-- Modelled from the spec: `HasTwoThirdsAny()` — total recorded power
strictly exceeds two thirds of the committee power. -/
def HasTwoThirdsAny (vs : VoteSet) : Bool :=
  Nat.blt (2 * vs.total) (3 * ((vs.votes.map (fun e => vs.power e.1)).sum))

/-- Modelled from the spec: `HasAll()` — every committee member has voted. -/
def HasAll (vs : VoteSet) : Bool :=
  vs.committee.all (fun m => vs.votes.any (fun e => e.1 == m.1))

/-- Modelled from the spec: `AddVote(v)` (spec section 4.1).  Rejects votes
whose `(height, round, type)` do not match the set or whose signer is not a
committee member; records a first vote; ignores an identical duplicate;
reports a conflicting duplicate as `ConflictingVotes` evidence. -/
def AddVote (vs : VoteSet) (v : Vote) : VoteSet × Bool × Option BftError :=
  if v.height != vs.height || v.round != vs.round || v.vtype != vs.vtype then
    (vs, false, some .invalidVote)
  else if (vs.committee.find? (fun m => m.1 == v.address)).isNone then
    (vs, false, some .invalidVote)
  else
    match vs.votes.find? (fun e => e.1 == v.address) with
    | none =>
      ({ vs with votes := (v.address, v.proposed) :: vs.votes }, true, none)
    | some e =>
      if e.2 == v.proposed then (vs, false, none)
      else (vs, true, some .conflictingVotes)

/-- Modelled from the spec: `MakeCommit()` produces a `Commit` iff the set has
a +2/3 majority for a non-nil value; otherwise it fails (`none`). -/
def MakeCommit (vs : VoteSet) : Option CommitRec :=
  match vs.TwoThirdsMajority with
  | some d => if d == NilData then none else some ⟨vs.height, vs.round, d, 0⟩
  | none => none

/-- An empty vote set for the given coordinates over a committee. -/
def empty (committee : List (Nat × Nat)) (h r : Int) (t : VoteType) : VoteSet :=
  ⟨h, r, t, committee, []⟩

end VoteSet

/-- Modelled from the spec: `HeightVoteSet` (spec section 4.2) — per-round
prevote and precommit `VoteSet`s of one height with a round watermark.  The
per-round collections are total functions; rounds outside `[0, watermark]`
answer with the empty set (in Go they are absent from the map).  The
implementation file of `HeightVoteSet` is not among the given sources. -/
structure HeightVoteSet where
  height : Int
  committee : List (Nat × Nat)
  watermark : Nat
  prevotesF : Int → VoteSet
  precommitsF : Int → VoteSet

namespace HeightVoteSet

/-- Modelled from the spec: `Prevotes(round)` — the prevote set of a round
inside the tracked window. -/
def Prevotes (hvs : HeightVoteSet) (r : Int) : VoteSet :=
  if 0 ≤ r ∧ r ≤ (hvs.watermark : Int) then hvs.prevotesF r
  else VoteSet.empty hvs.committee hvs.height r .prevote

/-- Modelled from the spec: `Precommits(round)` — the precommit set of a round
inside the tracked window. -/
def Precommits (hvs : HeightVoteSet) (r : Int) : VoteSet :=
  if 0 ≤ r ∧ r ≤ (hvs.watermark : Int) then hvs.precommitsF r
  else VoteSet.empty hvs.committee hvs.height r .precommit

/-- Modelled from the spec: `SetRound(r)` grows the watermark to
`max(current, r)`; it never shrinks. -/
def SetRound (hvs : HeightVoteSet) (r : Int) : HeightVoteSet :=
  { hvs with watermark := max hvs.watermark r.toNat }

/-- Modelled from the spec: `AddVote(v)` dispatches to the prevote or
precommit set of the vote's round and rejects votes outside the tracked
round window. -/
def AddVote (hvs : HeightVoteSet) (v : Vote) :
    HeightVoteSet × Bool × Option BftError :=
  if v.round < 0 ∨ (hvs.watermark : Int) < v.round then
    (hvs, false, some .invalidVote)
  else
    match v.vtype with
    | .prevote =>
      let res := (hvs.prevotesF v.round).AddVote v
      ({ hvs with
          prevotesF := fun r => if r == v.round then res.1 else hvs.prevotesF r },
        res.2.1, res.2.2)
    | .precommit =>
      let res := (hvs.precommitsF v.round).AddVote v
      ({ hvs with
          precommitsF := fun r => if r == v.round then res.1 else hvs.precommitsF r },
        res.2.1, res.2.2)
    | .proposal => (hvs, false, some .invalidVote)

/-- Helper for `POLInfo`: the greatest round `r ≤ n` whose prevote set has a
+2/3 majority, with that majority value. -/
def polInfoAux (pv : Int → VoteSet) : Nat → Option (Int × ProposedData)
  | 0 =>
    (pv 0).TwoThirdsMajority.map (fun d => ((0 : Int), d))
  | n + 1 =>
    match (pv ((n : Int) + 1)).TwoThirdsMajority with
    | some d => some (((n : Int) + 1, d))
    | none => polInfoAux pv n

/-- Modelled from the spec: `POLInfo()` — the latest round in the tracked
window whose prevote set reached a +2/3 majority, and that majority value
(the usage in `enterPrecommit`, spec section 4.4 step 3, shows that a
`NilData` polka also counts).  `(-1, NilData)` when no round has a polka. -/
def POLInfo (hvs : HeightVoteSet) : Int × ProposedData :=
  match polInfoAux hvs.prevotesF hvs.watermark with
  | some rd => rd
  | none => (-1, NilData)

/-- A fresh `HeightVoteSet` for a height (`NewHeightVoteSet`). -/
def new (committee : List (Nat × Nat)) (h : Int) : HeightVoteSet :=
  ⟨h, committee, 0,
    fun r => VoteSet.empty committee h r .prevote,
    fun r => VoteSet.empty committee h r .precommit⟩

end HeightVoteSet

/-- The replicated round state owned by the driver (`RoundState` plus the
`Core` fields the transitions read and write).  Wall-clock times are `Nat`
ticks. -/
structure CoreState where
  Height : Int
  Round : Int
  Step : RoundStepType
  StartTime : Nat
  CommitTime : Nat
  Proposal : Option Vote
  LockedProposal : Option Vote
  LockedRound : Int
  Votes : HeightVoteSet
  CommitRound : Int
  LastCommit : Option VoteSet
  lastCommittedData : ProposedData
  hasRecvCommitRecords : Bool
  byzantinePrevote : Option ProposedData

/-- The external collaborators of one transition: the `Committee` and
`PrivateValidator` interfaces, the timeout configuration and the clock.
All of them are read-only from the state machine's point of view. -/
structure Env where
  committee : List (Nat × Nat)
  selfAddr : Nat
  isValidatorF : Nat → Bool
  proposerF : Int → Nat
  decidesProposal : ProposedData
  validateProposalF : ProposedData → Bool
  verifySig : Vote → Bool
  sigOf : Vote → Nat
  appState : Option AppState
  skipTimeoutCommit : Bool
  now : Nat
  cfgPropose : Int → Nat
  cfgPrevote : Int → Nat
  cfgPrecommit : Int → Nat
  cfgCommit : Nat → Nat
  fetchInterval : Nat

/-- Observable side effects of a transition: votes pushed on the internal
queue, votes broadcast to peers, scheduled timeouts, outbound fetch
requests, and commit records broadcast or handed to the committee. -/
inductive Emission where
  | internal (v : Vote)
  | broadcast (v : Vote)
  | timeout (duration : Nat) (height : Int) (round : Int) (step : RoundStepType)
  | fetchReq (height : Int) (round : Int) (step : RoundStepType)
  | broadcastCommit (c : CommitRec)
  | commitToApp (c : CommitRec)
deriving DecidableEq

/-- Result of a state transition: a fatal sanity panic, or a new state
together with the effects it produced. -/
abbrev TRes := Except String (CoreState × List Emission)

/-- A transition that does nothing. -/
def noop (s : CoreState) : TRes := .ok (s, [])

/-- Sequencing of transitions: effects accumulate; a panic aborts. -/
def seqT (x : TRes) (f : CoreState → TRes) : TRes :=
  match x with
  | .error e => .error e
  | .ok (s, out) =>
    match f s with
    | .error e => .error e
    | .ok (s2, out2) => .ok (s2, out ++ out2)

namespace Core

/-- `message.NewVote`: build a vote of the node itself, unsigned. -/
def mkVote (env : Env) (t : VoteType) (h r : Int) (data prev : ProposedData) :
    Vote :=
  ⟨t, h, r, data, prev, env.selfAddr, 0⟩

/-- `PrivateValidator.Sign` on a vote: attach the signature. -/
def signVote (env : Env) (v : Vote) : Vote :=
  { v with sig := env.sigOf v }

/-- `Core.isValidator`: whether the committee recognises this node's public
key. -/
def isValidator (env : Env) : Bool :=
  env.isValidatorF env.selfAddr

/-- `Core.updateRoundStep`. -/
def updateRoundStep (s : CoreState) (round : Int) (step : RoundStepType) :
    CoreState :=
  { s with Round := round, Step := step }

/-- The shared precondition check `c.Height != height || round < c.Round ||
(c.Round == round && target <= c.Step)` of `enterPropose`, `enterPrevote`,
`enterPrevoteWait`, `enterPrecommit` and `enterPrecommitWait`. -/
def invalidArgs (s : CoreState) (h r : Int) (target : RoundStepType) : Bool :=
  (s.Height != h) || decide (r < s.Round) ||
    (s.Round == r && target.ble s.Step)

/-- `Core.signAddVote`: a validator signs the vote, queues it internally and
broadcasts it; a non-validator does nothing. -/
def signAddVote (env : Env) (v : Vote) : List Emission :=
  if isValidator env then
    [.internal (signVote env v), .broadcast (signVote env v)]
  else []

/-- `Core.isReadyToPrevote`. -/
def isReadyToPrevote (s : CoreState) : Bool :=
  s.Proposal.isSome || decide (0 ≤ s.LockedRound)

/-- `Core.scheduleRound0`: schedule the `NewHeight` timeout of round 0 at the
state's start time. -/
def scheduleRound0 (env : Env) (s : CoreState) : List Emission :=
  [.timeout (s.StartTime - env.now) s.Height 0 .NewHeight]

/-- `Core.updateToAppState`: adopt the committee's application state, reset
the lock and the proposal, and install the next height's vote sets.  Panics
when the core is ahead of the application or the last precommit round lost
its majority. -/
def updateToAppState (env : Env) (s : CoreState) (aps : Option AppState) :
    Except String CoreState :=
  match aps with
  | none => .ok s
  | some a =>
    if decide (-1 < s.CommitRound) && decide (0 < s.Height) &&
        decide (a.LastHeight < s.Height) then
      .error "updateToState() expected state height mismatch"
    else
      let check : Except String (Option VoteSet) :=
        if decide (-1 < s.CommitRound) then
          if (s.Votes.Precommits s.CommitRound).HasTwoThirdsMajority then
            .ok (some (s.Votes.Precommits s.CommitRound))
          else
            .error "updateToState(state) last Precommit round without +2/3"
        else .ok none
      match check with
      | .error e => .error e
      | .ok lastPrecommits =>
        let h1 := a.LastHeight + 1
        let startTime :=
          if s.CommitTime == 0 then env.cfgCommit env.now
          else env.cfgCommit s.CommitTime
        .ok { s with
          Height := h1
          Round := 0
          Step := .NewHeight
          StartTime := startTime
          Proposal := none
          LockedRound := -1
          LockedProposal := none
          CommitRound := -1
          LastCommit := lastPrecommits
          lastCommittedData := a.LastProposedData
          Votes := HeightVoteSet.new env.committee h1 }

/-- `Core.enterPrevoteFetch`: set the fetch step and schedule the fetch
interval timeout. -/
def enterPrevoteFetch (env : Env) (s : CoreState) (height round : Int) :
    CoreState × List Emission :=
  (updateRoundStep s round .PrevoteFetch,
    [.timeout env.fetchInterval height round .PrevoteFetch])

/-- `Core.enterPrecommitFetch`: set the fetch step and schedule the fetch
interval timeout. -/
def enterPrecommitFetch (env : Env) (s : CoreState) (height round : Int) :
    CoreState × List Emission :=
  (updateRoundStep s round .PrecommitFetch,
    [.timeout env.fetchInterval height round .PrecommitFetch])

/-- The value chosen by `doPrevote` when the node is not locked: the accepted
proposal's value if the committee validates it, else `NilData`. -/
def doPrevoteUnlocked (env : Env) (s : CoreState) : ProposedData :=
  match s.Proposal with
  | some p => if env.validateProposalF p.proposed then p.proposed else NilData
  | none => NilData

/-- The value chosen by `doPrevote` once the byzantine override is out of the
way: the locked proposal's value when locked, else the unlocked choice. -/
def doPrevoteRegular (env : Env) (s : CoreState) : ProposedData :=
  match s.LockedProposal with
  | some lp =>
    if decide (0 ≤ s.LockedRound) then lp.proposed else doPrevoteUnlocked env s
  | none => doPrevoteUnlocked env s

/-- The value `doPrevote` votes for: the test-only byzantine override when it
is set to a non-nil value, otherwise the regular ladder. -/
def doPrevoteChoice (env : Env) (s : CoreState) : ProposedData :=
  match s.byzantinePrevote with
  | some b => if b != NilData then b else doPrevoteRegular env s
  | none => doPrevoteRegular env s

/-- `Core.doPrevote`: build the prevote for the current `(Height, Round)`
bound to `lastCommittedData`, and sign-add it.  (The Go function receives
`height`/`round` arguments but builds the vote from `c.Height`/`c.Round`.) -/
def doPrevote (env : Env) (s : CoreState) : List Emission :=
  signAddVote env
    (mkVote env .prevote s.Height s.Round (doPrevoteChoice env s)
      s.lastCommittedData)

/-- `Core.enterPrevote`: prevote, advance to the `Prevote` step and enter
`PrevoteFetch`. -/
def enterPrevote (env : Env) (s : CoreState) (height round : Int) : TRes :=
  if invalidArgs s height round .Prevote then noop s
  else
    let out := doPrevote env s
    let s1 := updateRoundStep s round .Prevote
    let p := enterPrevoteFetch env s1 height round
    .ok (p.1, out ++ p.2)

/-- `Core.doPropose`: ask the committee for a candidate (reusing the locked
value when locked), sign-add the proposal vote and store it. -/
def doPropose (env : Env) (s : CoreState) (height round : Int) :
    CoreState × List Emission :=
  let proposal0 :=
    mkVote env .proposal height round env.decidesProposal s.lastCommittedData
  let proposal :=
    match s.LockedProposal with
    | some lp =>
      if decide (-1 < s.LockedRound) then { proposal0 with proposed := lp.proposed }
      else proposal0
    | none => proposal0
  ({ s with Proposal := some proposal }, signAddVote env proposal)

/-- `Core.enterPropose`: schedule the propose timeout, propose when this node
is the designated proposer, set the `Propose` step, and fall through to
`enterPrevote` when a proposal is already present or the node is locked. -/
def enterPropose (env : Env) (s : CoreState) (height round : Int) : TRes :=
  if invalidArgs s height round .Propose then noop s
  else
    let out0 : List Emission := [.timeout (env.cfgPropose round) height round .Propose]
    let body :=
      if !(isValidator env) then (s, ([] : List Emission))
      else if env.proposerF s.Round == env.selfAddr then doPropose env s height round
      else (s, [])
    let s2 := updateRoundStep body.1 round .Propose
    if isReadyToPrevote s2 then
      match enterPrevote env s2 height s2.Round with
      | .error e => .error e
      | .ok (s3, out3) => .ok (s3, out0 ++ body.2 ++ out3)
    else .ok (s2, out0 ++ body.2)

/-- `Core.enterNewRound`: move to `(round, NewRound)`, clear the proposal for
rounds beyond 0, pre-track round `round + 1`, and enter `Propose`. -/
def enterNewRound (env : Env) (s : CoreState) (height round : Int) : TRes :=
  if (s.Height != height) || decide (round < s.Round) ||
      (s.Round == round && s.Step != RoundStepType.NewHeight) then noop s
  else
    let s1 := updateRoundStep s round .NewRound
    let s2 := if round == 0 then s1 else { s1 with Proposal := none }
    let s3 := { s2 with Votes := s2.Votes.SetRound (round + 1) }
    enterPropose env s3 height round

/-- `Core.enterPrevoteWait`: requires +2/3 prevotes for any value (sanity
panic otherwise), schedules the prevote timeout, and sets the step. -/
def enterPrevoteWait (env : Env) (s : CoreState) (height round : Int) : TRes :=
  if invalidArgs s height round .PrevoteWait then noop s
  else if !(s.Votes.Prevotes round).HasTwoThirdsAny then
    .error "enterPrevoteWait without +2/3 prevotes for any value"
  else
    .ok (updateRoundStep s round .PrevoteWait,
      [.timeout (env.cfgPrevote round) height round .PrevoteWait])

/-- `Core.enterPrecommitWait`: requires +2/3 precommits for any value (sanity
panic otherwise), schedules the precommit timeout, and sets the step. -/
def enterPrecommitWait (env : Env) (s : CoreState) (height round : Int) : TRes :=
  if invalidArgs s height round .PrecommitWait then noop s
  else if !(s.Votes.Precommits round).HasTwoThirdsAny then
    .error "enterPrecommitWait without +2/3 precommits for any value"
  else
    .ok (updateRoundStep s round .PrecommitWait,
      [.timeout (env.cfgPrecommit round) height round .PrecommitWait])

/-- `Core.enterPrecommit` — the core lock/unlock safety logic.  After the
lock decision every path sets the `Precommit` step and enters
`PrecommitFetch`. -/
def enterPrecommit (env : Env) (s : CoreState) (height round : Int) : TRes :=
  if invalidArgs s height round .Precommit then noop s
  else
    let wrap : CoreState → List Emission → TRes := fun s1 out =>
      let s2 := updateRoundStep s1 round .Precommit
      let p := enterPrecommitFetch env s2 s2.Height s2.Round
      .ok (p.1, out ++ p.2)
    let precommitNil := mkVote env .precommit height round NilData s.lastCommittedData
    match (s.Votes.Prevotes round).TwoThirdsMajority with
    | none => wrap s (signAddVote env precommitNil)
    | some polkaData =>
      if (s.Votes.POLInfo).1 != round then
        .error "This POLRound should equal the entered round"
      else if polkaData == NilData then
        match s.LockedProposal with
        | none => wrap s (signAddVote env precommitNil)
        | some _ =>
          wrap { s with LockedRound := -1, LockedProposal := none }
            (signAddVote env precommitNil)
      else
        let precommitPolka :=
          mkVote env .precommit height round polkaData s.lastCommittedData
        let lockOrUnlock : TRes :=
          match s.Proposal with
          | some p =>
            if p.proposed == polkaData then
              wrap { s with LockedRound := round, LockedProposal := some p }
                (signAddVote env precommitPolka)
            else
              wrap { s with LockedRound := -1, LockedProposal := none }
                (signAddVote env precommitNil)
          | none =>
            wrap { s with LockedRound := -1, LockedProposal := none }
              (signAddVote env precommitNil)
        match s.LockedProposal with
        | some lp =>
          if decide (0 ≤ s.LockedRound) && (lp.proposed == polkaData) then
            wrap { s with LockedRound := round } (signAddVote env precommitPolka)
          else lockOrUnlock
        | none =>
          if decide (0 ≤ s.LockedRound) then
            .error "nil LockedProposal dereference in enterPrecommit"
          else lockOrUnlock

/-- `Core.doCommit`: build the commit record from the precommit set (sanity
panic when it cannot be built or disagrees with the committed value),
broadcast it unless one was already received, deliver it to the committee,
adopt the new application state and schedule round 0. -/
def doCommit (env : Env) (s : CoreState) (data : ProposedData) : TRes :=
  match (s.Votes.Precommits s.CommitRound).MakeCommit with
  | none => .error "nil commit records in doCommit"
  | some records0 =>
    if data != records0.proposedData then
      .error "doCommit() inconsistent committed data"
    else
      let records := { records0 with commitTime := s.CommitTime }
      let outB :=
        if !s.hasRecvCommitRecords then [Emission.broadcastCommit records] else []
      match updateToAppState env s env.appState with
      | .error e => .error e
      | .ok s1 =>
        let s2 := { s1 with hasRecvCommitRecords := false }
        .ok (s2, outB ++ [Emission.commitToApp records] ++ scheduleRound0 env s2)

/-- `Core.enterCommit`: requires a +2/3 precommit majority (sanity panic
otherwise), records `CommitRound` and `CommitTime`, moves to the `Commit`
step and runs `doCommit`. -/
def enterCommit (env : Env) (s : CoreState) (height commitRound : Int) : TRes :=
  if (s.Height != height) || RoundStepType.ble .Commit s.Step then noop s
  else
    match (s.Votes.Precommits commitRound).TwoThirdsMajority with
    | none => .error "RunActionCommit() expects +2/3 precommits"
    | some maj23 =>
      let s1 := { s with CommitRound := commitRound, CommitTime := env.now }
      let s2 := updateRoundStep s1 s1.Round .Commit
      doCommit env s2 maj23

/-- `Core.fetchMissingVotes`: in a fetch step, send a fetch request to one
neighbour and re-arm the fetch timeout; otherwise do nothing. -/
def fetchMissingVotes (env : Env) (s : CoreState) : CoreState × List Emission :=
  if s.Step == RoundStepType.PrevoteFetch then
    (s, [.fetchReq s.Height s.Round .PrevoteFetch,
      .timeout env.fetchInterval s.Height s.Round .PrevoteFetch])
  else if s.Step == RoundStepType.PrecommitFetch then
    (s, [.fetchReq s.Height s.Round .PrecommitFetch,
      .timeout env.fetchInterval s.Height s.Round .PrecommitFetch])
  else (s, [])

/-- `Core.defaultSetProposal`: accept a proposal vote after the silent and
reported rejection checks, and enter `Prevote` when the committee validates
it. -/
def defaultSetProposal (env : Env) (s : CoreState) (proposal : Vote) :
    Except String (CoreState × List Emission × Option BftError) :=
  if s.Proposal.isSome then .ok (s, [], none)
  else if proposal.height != s.Height || proposal.round != s.Round then
    .ok (s, [], none)
  else if proposal.prev != s.lastCommittedData then .ok (s, [], none)
  else if env.proposerF s.Round != proposal.address then
    .ok (s, [], some .invalidProposer)
  else if !(env.verifySig proposal) then
    .ok (s, [], some .invalidProposalSignature)
  else if env.validateProposalF proposal.proposed then
    let s1 := { s with Proposal := some proposal }
    match enterPrevote env s1 s1.Height s1.Round with
    | .error e => .error e
    | .ok (s2, out) => .ok (s2, out, none)
  else .ok (s, [], none)

end Core

/-- The outcome of `addVote` / `tryAddVote`: the new state, the effects, the
`added` flag and the returned error kind. -/
structure AddVoteRes where
  state : CoreState
  out : List Emission
  added : Bool
  err : Option BftError

namespace Core

/-- `Core.addVote` — the fan-in logic: previous-height precommit stragglers,
height-mismatch rejection, proposal delegation, and the prevote/precommit
post-add triggers. -/
def addVote (env : Env) (s : CoreState) (vote : Vote) :
    Except String AddVoteRes :=
  if vote.height + 1 == s.Height then
    match s.LastCommit with
    | none => .ok ⟨s, [], false, some .voteHeightMismatch⟩
    | some lc =>
      if !(s.Step == RoundStepType.NewHeight &&
          vote.vtype == VoteType.precommit) then
        .ok ⟨s, [], false, some .voteHeightMismatch⟩
      else
        let res := lc.AddVote vote
        let s1 := { s with LastCommit := some res.1 }
        if !res.2.1 then .ok ⟨s1, [], res.2.1, res.2.2⟩
        else if env.skipTimeoutCommit && res.1.HasAll then
          match enterNewRound env s1 s1.Height 0 with
          | .error e => .error e
          | .ok (s2, out) => .ok ⟨s2, out, res.2.1, res.2.2⟩
        else .ok ⟨s1, [], res.2.1, res.2.2⟩
  else if vote.height != s.Height then
    .ok ⟨s, [], false, some .voteHeightMismatch⟩
  else if vote.vtype == VoteType.proposal then
    match defaultSetProposal env s vote with
    | .error e => .error e
    | .ok (s1, out, err) => .ok ⟨s1, out, false, err⟩
  else
    let res := s.Votes.AddVote vote
    let s1 := { s with Votes := res.1 }
    if !res.2.1 then .ok ⟨s1, [], res.2.1, res.2.2⟩
    else
      match vote.vtype with
      | .prevote =>
        let prevotes := s1.Votes.Prevotes vote.round
        let s2 :=
          match prevotes.TwoThirdsMajority with
          | some polkaData =>
            let sA :=
              match s1.LockedProposal with
              | some lp =>
                if decide (s1.LockedRound < vote.round) &&
                    (lp.proposed != polkaData) then
                  { s1 with LockedRound := -1, LockedProposal := none }
                else s1
              | none => s1
            if polkaData != NilData && (vote.round == sA.Round) then
              match sA.Proposal with
              | some p =>
                if p.proposed != polkaData then { sA with Proposal := none }
                else sA
              | none => sA
            else sA
          | none => s1
        let next : TRes :=
          if decide (s2.Round < vote.round) && prevotes.HasTwoThirdsAny then
            enterNewRound env s2 s2.Height vote.round
          else if (s2.Round == vote.round) &&
              RoundStepType.ble .Prevote s2.Step then
            if prevotes.TwoThirdsMajority.isSome then
              enterPrecommit env s2 s2.Height vote.round
            else if prevotes.HasTwoThirdsAny then
              enterPrevoteWait env s2 s2.Height vote.round
            else noop s2
          else if RoundStepType.blt s2.Step .Prevote then
            match s2.Proposal with
            | some _ => enterPrevote env s2 s2.Height s2.Round
            | none => noop s2
          else noop s2
        match next with
        | .error e => .error e
        | .ok (s3, out) => .ok ⟨s3, out, res.2.1, res.2.2⟩
      | .precommit =>
        let precommits := s1.Votes.Precommits vote.round
        let next : TRes :=
          if precommits.HasTwoThirdsMajority then
            seqT (seqT (seqT (enterNewRound env s1 s1.Height vote.round)
                  (fun t => enterPrecommit env t s1.Height vote.round))
                (fun t => enterCommit env t s1.Height vote.round))
              (fun t =>
                if env.skipTimeoutCommit && precommits.HasAll then
                  enterNewRound env t t.Height 0
                else noop t)
          else if decide (s1.Round ≤ vote.round) && precommits.HasTwoThirdsAny then
            seqT (enterNewRound env s1 s1.Height vote.round)
              (fun t => enterPrecommitWait env t s1.Height vote.round)
          else noop s1
        match next with
        | .error e => .error e
        | .ok (s3, out) => .ok ⟨s3, out, res.2.1, res.2.2⟩
      | .proposal => .error "Unexpected vote type"

/-- `Core.tryAddVote`: call `addVote` and filter the error kinds — height
mismatch and conflicting votes pass through, anything else becomes the
generic `ErrAddingVote`. -/
def tryAddVote (env : Env) (s : CoreState) (vote : Vote) :
    Except String AddVoteRes :=
  match addVote env s vote with
  | .error e => .error e
  | .ok r =>
    match r.err with
    | none => .ok r
    | some BftError.voteHeightMismatch => .ok r
    | some BftError.conflictingVotes => .ok r
    | some _ => .ok { r with err := some .addingVote }

end Core

/-- A timeout ticket (`timeoutInfo`). -/
structure TimeoutInfo where
  duration : Nat
  height : Int
  round : Int
  step : RoundStepType
deriving DecidableEq

namespace Core

/-- `Core.handleTimeout`: drop stale tickets, then dispatch on the ticket's
step. -/
def handleTimeout (env : Env) (s : CoreState) (ti : TimeoutInfo) : TRes :=
  if (ti.height != s.Height) || decide (ti.round < s.Round) ||
      (ti.round == s.Round && ti.step.blt s.Step) then noop s
  else
    match ti.step with
    | .NewHeight => enterNewRound env s ti.height 0
    | .NewRound => enterPropose env s ti.height 0
    | .Propose => enterPrevote env s ti.height ti.round
    | .PrevoteFetch => .ok (fetchMissingVotes env s)
    | .PrevoteWait => enterPrecommit env s ti.height ti.round
    | .PrecommitFetch => .ok (fetchMissingVotes env s)
    | .PrecommitWait =>
      seqT (enterPrecommit env s ti.height ti.round)
        (fun t => enterNewRound env t ti.height (ti.round + 1))
    | _ => .error "Invalid timeout step"

/-- The `*message.Vote` case of `Core.handleMsg`: a non-validator ignores the
vote entirely; a validator runs `tryAddVote` (the returned error is only
logged). -/
def handleMsgVote (env : Env) (s : CoreState) (v : Vote) : TRes :=
  if !(isValidator env) then noop s
  else
    match tryAddVote env s v with
    | .error e => .error e
    | .ok r => .ok (r.state, r.out)

end Core

/-! ## Concrete fixtures for witnesses and counterexamples -/

/-- A four-member committee of equal power 1. -/
def commJ : List (Nat × Nat) := [(1, 1), (2, 1), (3, 1), (4, 1)]

/-- A concrete environment in which this node (address 1) is a validator and
the proposer of every round. -/
def envV : Env :=
  { committee := commJ
    selfAddr := 1
    isValidatorF := fun _ => true
    proposerF := fun _ => 1
    decidesProposal := 1
    validateProposalF := fun _ => true
    verifySig := fun _ => true
    sigOf := fun _ => 9
    appState := some ⟨1, 1⟩
    skipTimeoutCommit := true
    now := 100
    cfgPropose := fun _ => 10
    cfgPrevote := fun _ => 10
    cfgPrecommit := fun _ => 10
    cfgCommit := fun t => t + 5
    fetchInterval := 1 }

/-- The same environment except that this node is not a validator. -/
def envNV : Env := { envV with isValidatorF := fun _ => false }

/-- A fresh height-1 vote-set collection. -/
def hvs1 : HeightVoteSet := HeightVoteSet.new commJ 1

/-- A fresh state at the start of height 1. -/
def sBase : CoreState :=
  { Height := 1
    Round := 0
    Step := .NewHeight
    StartTime := 0
    CommitTime := 0
    Proposal := none
    LockedProposal := none
    LockedRound := -1
    Votes := hvs1
    CommitRound := -1
    LastCommit := none
    lastCommittedData := 0
    hasRecvCommitRecords := false
    byzantinePrevote := none }

/-! ## Claims -/

/-- C10: if the committee does not recognise this node's public key as a
validator, `signAddVote` is a complete no-op (nothing signed, queued or
broadcast) and `handleMsg` ignores every inbound `Vote`, so a non-validator
node never emits or tallies a vote. -/
theorem nonvalidator_never_votes (env : Env) (s : CoreState) (v w : Vote)
    (h : Core.isValidator env = false) :
    Core.signAddVote env v = [] ∧ Core.handleMsgVote env s w = noop s := by
  refine ⟨?_, ?_⟩
  · simp [Core.signAddVote, h]
  · simp [Core.handleMsgVote, h]

/-- Witness for C10 at a concrete non-validator environment and state. -/
theorem nonvalidator_never_votes_witness :
    Core.signAddVote envNV ⟨.prevote, 1, 0, 1, 0, 2, 0⟩ = [] ∧
    Core.handleMsgVote envNV sBase ⟨.prevote, 1, 0, 1, 0, 2, 0⟩ = noop sBase :=
  nonvalidator_never_votes envNV sBase ⟨.prevote, 1, 0, 1, 0, 2, 0⟩
    ⟨.prevote, 1, 0, 1, 0, 2, 0⟩ rfl

/-- C9: a `NewRound` timeout ticket that passes `handleTimeout`'s staleness
filter makes the driver call `enterPropose(ti.Height, 0)` — the round
argument is fixed at 0, not `ti.Round` — so when the current round is
positive the ticket cannot drive the node into `Propose` for its round. -/
theorem handleTimeout_newRound_round0 (env : Env) (s : CoreState)
    (ti : TimeoutInfo) (hstep : ti.step = RoundStepType.NewRound)
    (hfresh : ((ti.height != s.Height) || decide (ti.round < s.Round) ||
      (ti.round == s.Round && ti.step.blt s.Step)) = false) :
    Core.handleTimeout env s ti = Core.enterPropose env s ti.height 0 ∧
    (0 < s.Round → Core.handleTimeout env s ti = noop s) := by
  refine ⟨?_, ?_⟩
  · unfold Core.handleTimeout
    rw [hfresh, hstep]
    simp
  · intro hr
    unfold Core.handleTimeout
    rw [hfresh, hstep]
    simp only [Bool.false_eq_true, if_false]
    unfold Core.enterPropose
    have hinv : Core.invalidArgs s ti.height 0 RoundStepType.Propose = true := by
      unfold Core.invalidArgs
      simp [hr]
    rw [hinv]
    simp

/-- Witness for C9: a `NewRound` ticket for round 1 while the node is already
in round 1 step `NewHeight`; the dispatch is a no-op because `enterPropose`
is invoked with round 0 < 1. -/
theorem handleTimeout_newRound_round0_witness :
    Core.handleTimeout envV { sBase with Round := 1 } ⟨5, 1, 1, .NewRound⟩ =
      noop { sBase with Round := 1 } :=
  (handleTimeout_newRound_round0 envV { sBase with Round := 1 }
    ⟨5, 1, 1, .NewRound⟩ rfl (by decide)).2 (by decide)

/-- C7: `tryAddVote` passes `addVote`'s state, effects and `added` flag
through unchanged; the returned error is kept when it is `nil`, the height
mismatch, or the conflicting-votes error, and every other error kind is
replaced by the generic `AddingVote` error. -/
theorem tryAddVote_filters_errors (env : Env) (s : CoreState) (v : Vote)
    (r : AddVoteRes) (h : Core.addVote env s v = .ok r) :
    Core.tryAddVote env s v = .ok
      { state := r.state
        out := r.out
        added := r.added
        err := match r.err with
          | none => none
          | some BftError.voteHeightMismatch => some BftError.voteHeightMismatch
          | some BftError.conflictingVotes => some BftError.conflictingVotes
          | some _ => some BftError.addingVote } := by
  unfold Core.tryAddVote
  rw [h]
  obtain ⟨st, out, added, err⟩ := r
  match err with
  | none => rfl
  | some BftError.voteHeightMismatch => rfl
  | some BftError.conflictingVotes => rfl
  | some BftError.addingVote => rfl
  | some BftError.invalidProposer => rfl
  | some BftError.invalidProposalSignature => rfl
  | some BftError.invalidVote => rfl

/-- Witness for C7: a vote three heights ahead is rejected by `addVote` with
the height-mismatch error, and `tryAddVote` returns it unchanged. -/
theorem tryAddVote_filters_errors_witness :
    Core.tryAddVote envV sBase ⟨.prevote, 4, 0, 1, 0, 2, 0⟩ =
      .ok ⟨sBase, [], false, some BftError.voteHeightMismatch⟩ :=
  tryAddVote_filters_errors envV sBase ⟨.prevote, 4, 0, 1, 0, 2, 0⟩
    ⟨sBase, [], false, some BftError.voteHeightMismatch⟩ rfl

/-- A state sitting in the `Precommit` step of round 0. -/
def sPrec : CoreState := { sBase with Step := .Precommit }

/-- C3 counterexample: `enterNewRound(1, 1)` from `(Height 1, Round 0, Step
Precommit)` is *not* a no-op even though the current step is not strictly
before `NewRound` — the guards only constrain the step when the round
argument equals the current round, so the claim's precondition reading is
wrong for round arguments above the current round. -/
theorem transition_guard_counterexample :
    ¬ (sPrec.Step.toNat < RoundStepType.NewRound.toNat) ∧
    Core.enterNewRound envNV sPrec 1 1 ≠ noop sPrec := by
  refine ⟨by decide, fun hEq => ?_⟩
  have h2 : (match Core.enterNewRound envNV sPrec 1 1 with
      | .ok (t, _) => t.Round
      | .error _ => 0) = 1 := by decide
  rw [hEq] at h2
  exact absurd h2 (by decide)

/-- C3 amended: each transition is a no-op — state unchanged, no votes
emitted, no timeouts scheduled — when its own entry guard fails: `h` must be
the current height; for the five middle transitions the round must be ≥ the
current round and, when it equals the current round, the current step must
be strictly before the target step; for `enterNewRound` the step condition
(only applied at equal rounds) is `Step = NewHeight`; and `enterCommit`
checks no round at all, only `Step < Commit`. -/
theorem transitions_noop_on_guard_failure (env : Env) (s : CoreState)
    (h r : Int) :
    (((s.Height != h) || decide (r < s.Round) ||
        (s.Round == r && s.Step != RoundStepType.NewHeight)) = true →
      Core.enterNewRound env s h r = noop s) ∧
    (Core.invalidArgs s h r .Propose = true →
      Core.enterPropose env s h r = noop s) ∧
    (Core.invalidArgs s h r .Prevote = true →
      Core.enterPrevote env s h r = noop s) ∧
    (Core.invalidArgs s h r .PrevoteWait = true →
      Core.enterPrevoteWait env s h r = noop s) ∧
    (Core.invalidArgs s h r .Precommit = true →
      Core.enterPrecommit env s h r = noop s) ∧
    (Core.invalidArgs s h r .PrecommitWait = true →
      Core.enterPrecommitWait env s h r = noop s) ∧
    (((s.Height != h) || RoundStepType.ble .Commit s.Step) = true →
      Core.enterCommit env s h r = noop s) := by
  refine ⟨?_, ?_, ?_, ?_, ?_, ?_, ?_⟩
  · intro hg
    unfold Core.enterNewRound
    rw [hg]
    rfl
  · intro hg
    unfold Core.enterPropose
    rw [hg]
    rfl
  · intro hg
    unfold Core.enterPrevote
    rw [hg]
    rfl
  · intro hg
    unfold Core.enterPrevoteWait
    rw [hg]
    rfl
  · intro hg
    unfold Core.enterPrecommit
    rw [hg]
    rfl
  · intro hg
    unfold Core.enterPrecommitWait
    rw [hg]
    rfl
  · intro hg
    unfold Core.enterCommit
    rw [hg]
    rfl

/-- Witness for the amended C3: with a height argument different from the
current height every guard fails and every transition is a no-op. -/
theorem transitions_noop_on_guard_failure_witness :
    Core.enterNewRound envV sBase 2 0 = noop sBase ∧
    Core.enterPropose envV sBase 2 0 = noop sBase ∧
    Core.enterPrevote envV sBase 2 0 = noop sBase ∧
    Core.enterPrevoteWait envV sBase 2 0 = noop sBase ∧
    Core.enterPrecommit envV sBase 2 0 = noop sBase ∧
    Core.enterPrecommitWait envV sBase 2 0 = noop sBase ∧
    Core.enterCommit envV sBase 2 0 = noop sBase := by
  have H := transitions_noop_on_guard_failure envV sBase 2 0
  exact ⟨H.1 (by decide), H.2.1 (by decide), H.2.2.1 (by decide),
    H.2.2.2.1 (by decide), H.2.2.2.2.1 (by decide), H.2.2.2.2.2.1 (by decide),
    H.2.2.2.2.2.2 (by decide)⟩

/-- A state locked on value 1 at round 0 whose byzantine prevote override is
set to `NilData`. -/
def sByz : CoreState :=
  { sBase with
    byzantinePrevote := some NilData
    LockedRound := 0
    LockedProposal := some ⟨.proposal, 1, 0, 1, 0, 1, 0⟩ }

/-- C6 counterexample: the byzantine prevote override is set (to `NilData`),
yet `doPrevote` votes for the locked value 1 rather than the override —
the override only takes effect when it names a non-nil value. -/
theorem doPrevote_byzantine_nil_counterexample :
    sByz.byzantinePrevote = some NilData ∧
    Core.doPrevoteChoice envV sByz = 1 ∧
    Core.doPrevoteChoice envV sByz ≠ NilData := by
  exact ⟨rfl, by decide, by decide⟩

/-- C6 amended: `doPrevote` always sign-adds one `Prevote` vote for the
current `(Height, Round)` bound to `lastCommittedData`, whose value is
chosen by the ladder: the test-only byzantine override when it is set *to a
non-nil value*; else the locked proposal's value when locked; else the
accepted proposal's value when one exists and the committee validates it;
else `NilData`. -/
theorem doPrevote_value_ladder (env : Env) (s : CoreState) :
    Core.doPrevote env s =
      Core.signAddVote env
        (Core.mkVote env .prevote s.Height s.Round (Core.doPrevoteChoice env s)
          s.lastCommittedData) ∧
    (∀ b, s.byzantinePrevote = some b → b ≠ NilData →
      Core.doPrevoteChoice env s = b) ∧
    ((s.byzantinePrevote = none ∨ s.byzantinePrevote = some NilData) →
      (∀ lp, s.LockedProposal = some lp → 0 ≤ s.LockedRound →
        Core.doPrevoteChoice env s = lp.proposed) ∧
      ((s.LockedProposal = none ∨ s.LockedRound < 0) →
        (∀ p, s.Proposal = some p → env.validateProposalF p.proposed = true →
          Core.doPrevoteChoice env s = p.proposed) ∧
        (∀ p, s.Proposal = some p → env.validateProposalF p.proposed = false →
          Core.doPrevoteChoice env s = NilData) ∧
        (s.Proposal = none → Core.doPrevoteChoice env s = NilData))) := by
  have hreg : (s.byzantinePrevote = none ∨ s.byzantinePrevote = some NilData) →
      Core.doPrevoteChoice env s = Core.doPrevoteRegular env s := by
    intro hb
    unfold Core.doPrevoteChoice
    rcases hb with hb | hb
    · rw [hb]
    · rw [hb]
      simp [NilData]
  refine ⟨rfl, ?_, ?_⟩
  · intro b hb hne
    unfold Core.doPrevoteChoice
    rw [hb]
    simp [hne]
  · intro hb
    rw [hreg hb]
    refine ⟨?_, ?_⟩
    · intro lp hlp hlr
      unfold Core.doPrevoteRegular
      rw [hlp]
      simp [hlr]
    · intro hunlock
      have hun : Core.doPrevoteRegular env s = Core.doPrevoteUnlocked env s := by
        unfold Core.doPrevoteRegular
        rcases hunlock with hu | hu
        · rw [hu]
        · match hlp : s.LockedProposal with
          | none => rfl
          | some lp => simp [decide_eq_false (by omega : ¬ (0 ≤ s.LockedRound))]
      rw [hun]
      refine ⟨?_, ?_, ?_⟩
      · intro p hp hv
        unfold Core.doPrevoteUnlocked
        rw [hp]
        simp [hv]
      · intro p hp hv
        unfold Core.doPrevoteUnlocked
        rw [hp]
        simp [hv]
      · intro hp
        unfold Core.doPrevoteUnlocked
        rw [hp]

/-- Witness for the amended C6 at the concrete locked state with a `NilData`
override: the choice is the locked value 1. -/
theorem doPrevote_value_ladder_witness :
    Core.doPrevoteChoice envV sByz = 1 :=
  ((doPrevote_value_ladder envV sByz).2.2 (Or.inr rfl)).1
    ⟨.proposal, 1, 0, 1, 0, 1, 0⟩ rfl (by decide)

/-- C5 counterexample: at the very first height `LastCommit` is nil; a
previous-height precommit arriving in step `NewHeight` is then rejected
with the height-mismatch error instead of being added to `LastCommit`,
although it satisfies the claim's conditions (`NewHeight` step, `Precommit`
type, previous height). -/
theorem addVote_straggler_counterexample :
    sBase.Step = RoundStepType.NewHeight ∧
    (⟨.precommit, 0, 0, 1, 0, 2, 0⟩ : Vote).vtype = VoteType.precommit ∧
    (⟨.precommit, 0, 0, 1, 0, 2, 0⟩ : Vote).height + 1 = sBase.Height ∧
    sBase.LastCommit = none ∧
    Core.addVote envV sBase ⟨.precommit, 0, 0, 1, 0, 2, 0⟩ =
      .ok ⟨sBase, [], false, some BftError.voteHeightMismatch⟩ :=
  ⟨rfl, rfl, rfl, rfl, rfl⟩

/-- C5 amended: for a vote of the previous height (`v.Height + 1 = Height`):
when the core is in step `NewHeight`, `v` is a `Precommit`, *and*
`LastCommit` is non-nil, `addVote` delegates `v` to `LastCommit.AddVote`;
when the vote is added, `cfg.SkipTimeoutCommit` is set and the updated
`LastCommit.HasAll()` holds, it immediately enters round 0 of the current
height; every other previous-height vote (including the `LastCommit = nil`
case) is rejected with the height-mismatch error and leaves the state
unchanged. -/
theorem addVote_straggler_precommit (env : Env) (s : CoreState) (v : Vote)
    (hh : v.height + 1 = s.Height) :
    (∀ lc lc2 added err, s.LastCommit = some lc →
      s.Step = RoundStepType.NewHeight → v.vtype = VoteType.precommit →
      lc.AddVote v = (lc2, added, err) →
      (added = false →
        Core.addVote env s v =
          .ok ⟨{ s with LastCommit := some lc2 }, [], false, err⟩) ∧
      (added = true → (env.skipTimeoutCommit && lc2.HasAll) = true →
        Core.addVote env s v =
          match Core.enterNewRound env { s with LastCommit := some lc2 }
              s.Height 0 with
          | .error e => .error e
          | .ok (s2, out) => .ok ⟨s2, out, true, err⟩) ∧
      (added = true → (env.skipTimeoutCommit && lc2.HasAll) = false →
        Core.addVote env s v =
          .ok ⟨{ s with LastCommit := some lc2 }, [], true, err⟩)) ∧
    (¬ (s.Step = RoundStepType.NewHeight ∧ v.vtype = VoteType.precommit ∧
        s.LastCommit.isSome = true) →
      Core.addVote env s v =
        .ok ⟨s, [], false, some BftError.voteHeightMismatch⟩) := by
  have hbeq : (v.height + 1 == s.Height) = true := by
    simp [hh]
  refine ⟨?_, ?_⟩
  · intro lc lc2 added err hlc hstep htype hadd
    unfold Core.addVote
    rw [hbeq, hlc]
    simp only [hstep, htype, hadd]
    refine ⟨?_, ?_, ?_⟩
    · intro ha
      subst ha
      simp
    · intro ha hskip
      subst ha
      simp [hskip]
    · intro ha hskip
      subst ha
      simp [hskip]
  · intro hno
    unfold Core.addVote
    rw [hbeq]
    match hlc : s.LastCommit with
    | none => simp
    | some lc =>
      have hcond : (s.Step == RoundStepType.NewHeight &&
          v.vtype == VoteType.precommit) = false := by
        rcases Bool.eq_false_or_eq_true
            (s.Step == RoundStepType.NewHeight && v.vtype == VoteType.precommit)
            with hc | hc
        · exfalso
          apply hno
          simp only [Bool.and_eq_true, beq_iff_eq] at hc
          exact ⟨hc.1, hc.2, by rw [hlc]; rfl⟩
        · exact hc
      simp [hcond]

/-- A precommit set of height 1 round 0 already holding votes from members
2 and 3 for value 1. -/
def lcW : VoteSet := ⟨1, 0, .precommit, commJ, [(2, 1), (3, 1)]⟩

/-- `lcW` after member 4's precommit for value 1 was added. -/
def lcW2 : VoteSet := { lcW with votes := (4, 1) :: lcW.votes }

/-- A state waiting in `NewHeight` at height 2 with `LastCommit = lcW`. -/
def s2Base : CoreState :=
  { sBase with
    Height := 2
    LastCommit := some lcW
    lastCommittedData := 1
    Votes := HeightVoteSet.new commJ 2 }

/-- Witness for the amended C5: member 4's height-1 precommit is added to
`LastCommit`; member 1 has still not voted, so `HasAll` fails and no new
round is entered. -/
theorem addVote_straggler_precommit_witness :
    Core.addVote envV s2Base ⟨.precommit, 1, 0, 1, 0, 4, 0⟩ =
      .ok ⟨{ s2Base with LastCommit := some lcW2 }, [], true, none⟩ :=
  (((addVote_straggler_precommit envV s2Base ⟨.precommit, 1, 0, 1, 0, 4, 0⟩
    rfl).1 lcW lcW2 true none rfl rfl rfl rfl).2.2) rfl (by decide)

/-- Well-formedness of the lock as maintained by the code: an unlocked node
has `LockedRound = -1` and a locked node has `LockedRound ≥ 0`. -/
def lockWF (s : CoreState) : Prop :=
  (s.LockedProposal = none → s.LockedRound = -1) ∧
  (∀ lp, s.LockedProposal = some lp → 0 ≤ s.LockedRound)

/-- C1: once `enterPrecommit(h, r)` passes its entry guard, the lock decision
follows the ladder.  With no +2/3 prevote majority at `r` it precommits
`NilData` and leaves the lock untouched; (when `POLInfo` names `r`) a
`NilData` polka unlocks and precommits `NilData`; a polka for `v` relocks at
`r` when the locked proposal's value is `v`, locks onto the current
`Proposal` when it exists with value `v`, and otherwise unlocks and
precommits `NilData`.  Every path ends in `(Round r, Step PrecommitFetch)`
with the fetch timeout armed. -/
theorem enterPrecommit_lock_ladder (env : Env) (s : CoreState) (h r : Int)
    (hg : Core.invalidArgs s h r .Precommit = false) (hwf : lockWF s) :
    ((s.Votes.Prevotes r).TwoThirdsMajority = none →
      Core.enterPrecommit env s h r = .ok
        ({ s with Round := r, Step := .PrecommitFetch },
          Core.signAddVote env
              (Core.mkVote env .precommit h r NilData s.lastCommittedData) ++
            [.timeout env.fetchInterval s.Height r .PrecommitFetch])) ∧
    ((s.Votes.POLInfo).1 = r →
      ((s.Votes.Prevotes r).TwoThirdsMajority = some NilData →
        Core.enterPrecommit env s h r = .ok
          ({ s with LockedRound := -1, LockedProposal := none, Round := r, Step := .PrecommitFetch },
            Core.signAddVote env
                (Core.mkVote env .precommit h r NilData s.lastCommittedData) ++
              [.timeout env.fetchInterval s.Height r .PrecommitFetch])) ∧
      (∀ d, (s.Votes.Prevotes r).TwoThirdsMajority = some d → d ≠ NilData →
        (∀ lp, s.LockedProposal = some lp → lp.proposed = d →
          Core.enterPrecommit env s h r = .ok
            ({ s with LockedRound := r, Round := r, Step := .PrecommitFetch },
              Core.signAddVote env
                  (Core.mkVote env .precommit h r d s.lastCommittedData) ++
                [.timeout env.fetchInterval s.Height r .PrecommitFetch])) ∧
        ((∀ lp, s.LockedProposal = some lp → lp.proposed ≠ d) →
          (∀ p, s.Proposal = some p → p.proposed = d →
            Core.enterPrecommit env s h r = .ok
              ({ s with LockedRound := r, LockedProposal := some p, Round := r, Step := .PrecommitFetch },
                Core.signAddVote env
                    (Core.mkVote env .precommit h r d s.lastCommittedData) ++
                  [.timeout env.fetchInterval s.Height r .PrecommitFetch])) ∧
          ((∀ p, s.Proposal = some p → p.proposed ≠ d) →
            Core.enterPrecommit env s h r = .ok
              ({ s with LockedRound := -1, LockedProposal := none, Round := r, Step := .PrecommitFetch },
                Core.signAddVote env
                    (Core.mkVote env .precommit h r NilData s.lastCommittedData) ++
                  [.timeout env.fetchInterval s.Height r .PrecommitFetch]))))) := by
  unfold Core.enterPrecommit
  rw [hg]
  simp only [Bool.false_eq_true, if_false]
  refine ⟨?_, ?_⟩
  · intro hmaj
    rw [hmaj]
    rfl
  · intro hpol
    have hpolb : ((s.Votes.POLInfo).1 != r) = false := by
      simp [hpol]
    refine ⟨?_, ?_⟩
    · intro hmaj
      rw [hmaj]
      dsimp only
      rw [hpolb]
      simp only [Bool.false_eq_true, if_false, if_true]
      match hlp : s.LockedProposal with
      | none =>
        have h1 : s.LockedRound = -1 := hwf.1 hlp
        conv_rhs => rw [← h1, ← hlp]
        rfl
      | some lp => rfl
    · intro d hmaj hne
      have hdb : (d == NilData) = false := by
        simp [hne]
      rw [hmaj]
      dsimp only
      rw [hpolb, hdb]
      simp only [Bool.false_eq_true, if_false]
      refine ⟨?_, ?_⟩
      · intro lp hlp hval
        have hlr : decide (0 ≤ s.LockedRound) = true := by
          simp [hwf.2 lp hlp]
        have hvb : (lp.proposed == d) = true := by
          simp [hval]
        rw [hlp]
        dsimp only
        rw [hlr, hvb]
        rfl
      · intro hnr
        refine ⟨?_, ?_⟩
        · intro p hp hval
          have hpb : (p.proposed == d) = true := by
            simp [hval]
          match hlp : s.LockedProposal with
          | none =>
            have h1 : s.LockedRound = -1 := hwf.1 hlp
            have hlrb : decide (0 ≤ s.LockedRound) = false := by
              simp [h1]
            dsimp only
            rw [hlrb]
            simp only [Bool.false_eq_true, if_false]
            rw [hp]
            dsimp only
            rw [hpb]
            rfl
          | some lp =>
            have hlpb : (lp.proposed == d) = false := by
              simp [hnr lp hlp]
            dsimp only
            rw [hlpb]
            simp only [Bool.and_false, Bool.false_eq_true, if_false]
            rw [hp]
            dsimp only
            rw [hpb]
            rfl
        · intro hnp
          match hlp : s.LockedProposal with
          | none =>
            have h1 : s.LockedRound = -1 := hwf.1 hlp
            have hlrb : decide (0 ≤ s.LockedRound) = false := by
              simp [h1]
            dsimp only
            rw [hlrb]
            simp only [Bool.false_eq_true, if_false]
            match hpp : s.Proposal with
            | none => rfl
            | some p =>
              have hpb : (p.proposed == d) = false := by
                simp [hnp p hpp]
              dsimp only
              rw [hpb]
              simp only [Bool.false_eq_true, if_false]
              rfl
          | some lp =>
            have hlpb : (lp.proposed == d) = false := by
              simp [hnr lp hlp]
            dsimp only
            rw [hlpb]
            simp only [Bool.and_false, Bool.false_eq_true, if_false]
            match hpp : s.Proposal with
            | none => rfl
            | some p =>
              have hpb : (p.proposed == d) = false := by
                simp [hnp p hpp]
              dsimp only
              rw [hpb]
              simp only [Bool.false_eq_true, if_false]
              rfl

/-- A proposal vote for value 1 at `(height 1, round 0)` from member 1. -/
def propX : Vote := ⟨.proposal, 1, 0, 1, 0, 1, 9⟩

/-- A round-0 prevote set where members 1, 2, 3 prevoted value 1 (a polka). -/
def pvSet : VoteSet := ⟨1, 0, .prevote, commJ, [(1, 1), (2, 1), (3, 1)]⟩

/-- Height-1 vote sets with the polka `pvSet` installed at round 0. -/
def hvsPolka : HeightVoteSet :=
  { hvs1 with
    watermark := 1
    prevotesF := fun r => if r == 0 then pvSet else hvs1.prevotesF r }

/-- An unlocked state in step `Prevote` of round 0 holding proposal `propX`
and observing the round-0 polka for value 1. -/
def sPolka : CoreState :=
  { sBase with Step := .Prevote, Votes := hvsPolka, Proposal := some propX }

/-- Witness for C1: from `sPolka`, `enterPrecommit(1, 0)` takes the **lock**
branch — it locks onto `propX` at round 0 and precommits value 1. -/
theorem enterPrecommit_lock_ladder_witness :
    Core.enterPrecommit envV sPolka 1 0 = .ok
      ({ sPolka with LockedRound := 0, LockedProposal := some propX, Round := 0, Step := .PrecommitFetch },
        Core.signAddVote envV
            (Core.mkVote envV .precommit 1 0 1 sPolka.lastCommittedData) ++
          [.timeout envV.fetchInterval sPolka.Height 0 .PrecommitFetch]) :=
  ((((enterPrecommit_lock_ladder envV sPolka 1 0 (by decide)
      ⟨fun _ => rfl, fun lp hlp => nomatch hlp⟩).2 (by decide)).2 1 (by decide)
    (by decide)).2 (fun lp hlp => nomatch hlp)).1 propX rfl rfl

/-- C4: once `enterCommit(h, commitRound)` passes its entry guard it proceeds
only on a +2/3 precommit majority for a non-nil value — with no majority it
panics, with a `NilData` majority `doCommit` cannot build the commit records
and panics, and every successful completion delivered a commit for a
non-nil majority value to the committee. -/
theorem enterCommit_nonnil_only (env : Env) (s : CoreState) (h cr : Int)
    (hg : ((s.Height != h) || RoundStepType.ble .Commit s.Step) = false) :
    ((s.Votes.Precommits cr).TwoThirdsMajority = none →
      Core.enterCommit env s h cr =
        .error "RunActionCommit() expects +2/3 precommits") ∧
    ((s.Votes.Precommits cr).TwoThirdsMajority = some NilData →
      Core.enterCommit env s h cr = .error "nil commit records in doCommit") ∧
    (∀ s2 out, Core.enterCommit env s h cr = .ok (s2, out) →
      ∃ d, (s.Votes.Precommits cr).TwoThirdsMajority = some d ∧ d ≠ NilData ∧
        ∃ c, Emission.commitToApp c ∈ out ∧ c.proposedData = d) := by
  unfold Core.enterCommit
  rw [hg]
  simp only [Bool.false_eq_true, if_false]
  refine ⟨?_, ?_, ?_⟩
  · intro hmaj
    rw [hmaj]
  · intro hmaj
    rw [hmaj]
    dsimp only [Core.updateRoundStep]
    unfold Core.doCommit
    dsimp only [Core.updateRoundStep]
    unfold VoteSet.MakeCommit
    rw [hmaj]
    rfl
  · intro s2 out hok
    match hmaj : (s.Votes.Precommits cr).TwoThirdsMajority with
    | none =>
      rw [hmaj] at hok
      exact absurd hok (by simp)
    | some d =>
      rw [hmaj] at hok
      dsimp only [Core.updateRoundStep] at hok
      unfold Core.doCommit at hok
      dsimp only [Core.updateRoundStep] at hok
      unfold VoteSet.MakeCommit at hok
      rw [hmaj] at hok
      dsimp only at hok
      by_cases hd : d = NilData
      · rw [hd] at hok
        simp at hok
      · have hdb : (d == NilData) = false := by
          simp [hd]
        rw [hdb] at hok
        simp only [bne_self_eq_false, Bool.false_eq_true, if_false] at hok
        split at hok
        · exact absurd hok (by simp)
        · simp only [Except.ok.injEq, Prod.mk.injEq] at hok
          refine ⟨d, rfl, hd,
            ⟨{ height := (s.Votes.Precommits cr).height,
               round := (s.Votes.Precommits cr).round,
               proposedData := d, commitTime := env.now }, ?_, rfl⟩⟩
          rw [← hok.2]
          simp [List.mem_append]

/-- Witness for C4: at the fresh height-1 state the round-0 precommit set is
empty, so `enterCommit(1, 0)` panics. -/
theorem enterCommit_nonnil_only_witness :
    Core.enterCommit envV sBase 1 0 =
      .error "RunActionCommit() expects +2/3 precommits" :=
  (enterCommit_nonnil_only envV sBase 1 0 (by decide)).1 rfl

/-! ## Post-state lemmas used for transition idempotence -/

/-- Sequencing with a function that is a no-op on every successful result of
the first transition collapses to the first transition. -/
theorem seqT_noop_second (x : TRes) (f : CoreState → TRes)
    (hf : ∀ s1 out, x = .ok (s1, out) → f s1 = noop s1) : seqT x f = x := by
  unfold seqT
  match hx : x with
  | .error e => rfl
  | .ok (s1, out) =>
    dsimp only
    rw [hf s1 out rfl]
    simp [noop]

namespace Core

/-- A successful `enterPrevote` either hit its guard (state unchanged) or
left the state at `(Round r, Step PrevoteFetch)` with the height unchanged. -/
theorem enterPrevote_post (env : Env) (s : CoreState) (h r : Int)
    (s1 : CoreState) (out : List Emission)
    (hok : enterPrevote env s h r = .ok (s1, out)) :
    (invalidArgs s h r .Prevote = true ∧ s1 = s) ∨
    (s1.Height = s.Height ∧ s1.Round = r ∧ s1.Step = .PrevoteFetch) := by
  unfold enterPrevote at hok
  cases hg : invalidArgs s h r RoundStepType.Prevote
  · rw [hg] at hok
    simp only [Bool.false_eq_true, if_false, Except.ok.injEq,
      Prod.mk.injEq] at hok
    right
    rw [← hok.1]
    exact ⟨rfl, rfl, rfl⟩
  · rw [hg] at hok
    simp only [if_true, noop, Except.ok.injEq, Prod.mk.injEq] at hok
    exact Or.inl ⟨rfl, hok.1.symm⟩

/-- A successful `enterPrevoteWait` either hit its guard or left the state at
`(Round r, Step PrevoteWait)` with the height unchanged. -/
theorem enterPrevoteWait_post (env : Env) (s : CoreState) (h r : Int)
    (s1 : CoreState) (out : List Emission)
    (hok : enterPrevoteWait env s h r = .ok (s1, out)) :
    (invalidArgs s h r .PrevoteWait = true ∧ s1 = s) ∨
    (s1.Height = s.Height ∧ s1.Round = r ∧ s1.Step = .PrevoteWait) := by
  unfold enterPrevoteWait at hok
  cases hg : invalidArgs s h r RoundStepType.PrevoteWait
  · rw [hg] at hok
    simp only [Bool.false_eq_true, if_false] at hok
    cases hany : (s.Votes.Prevotes r).HasTwoThirdsAny
    · rw [hany] at hok
      simp at hok
    · rw [hany] at hok
      simp only [Bool.not_true, Bool.false_eq_true, if_false,
        Except.ok.injEq, Prod.mk.injEq] at hok
      right
      rw [← hok.1]
      exact ⟨rfl, rfl, rfl⟩
  · rw [hg] at hok
    simp only [if_true, noop, Except.ok.injEq, Prod.mk.injEq] at hok
    exact Or.inl ⟨rfl, hok.1.symm⟩

/-- A successful `enterPrecommitWait` either hit its guard or left the state
at `(Round r, Step PrecommitWait)` with the height unchanged. -/
theorem enterPrecommitWait_post (env : Env) (s : CoreState) (h r : Int)
    (s1 : CoreState) (out : List Emission)
    (hok : enterPrecommitWait env s h r = .ok (s1, out)) :
    (invalidArgs s h r .PrecommitWait = true ∧ s1 = s) ∨
    (s1.Height = s.Height ∧ s1.Round = r ∧ s1.Step = .PrecommitWait) := by
  unfold enterPrecommitWait at hok
  cases hg : invalidArgs s h r RoundStepType.PrecommitWait
  · rw [hg] at hok
    simp only [Bool.false_eq_true, if_false] at hok
    cases hany : (s.Votes.Precommits r).HasTwoThirdsAny
    · rw [hany] at hok
      simp at hok
    · rw [hany] at hok
      simp only [Bool.not_true, Bool.false_eq_true, if_false,
        Except.ok.injEq, Prod.mk.injEq] at hok
      right
      rw [← hok.1]
      exact ⟨rfl, rfl, rfl⟩
  · rw [hg] at hok
    simp only [if_true, noop, Except.ok.injEq, Prod.mk.injEq] at hok
    exact Or.inl ⟨rfl, hok.1.symm⟩

/-- A successful `enterPrecommit` either hit its guard or left the state at
`(Round r, Step PrecommitFetch)` with the height unchanged. -/
theorem enterPrecommit_post (env : Env) (s : CoreState) (h r : Int)
    (s1 : CoreState) (out : List Emission)
    (hok : enterPrecommit env s h r = .ok (s1, out)) :
    (invalidArgs s h r .Precommit = true ∧ s1 = s) ∨
    (s1.Height = s.Height ∧ s1.Round = r ∧ s1.Step = .PrecommitFetch) := by
  unfold enterPrecommit at hok
  cases hg : invalidArgs s h r RoundStepType.Precommit
  · rw [hg] at hok
    simp only [Bool.false_eq_true, if_false] at hok
    right
    repeat' split at hok
    all_goals
      first
      | (simp only [Except.ok.injEq, Prod.mk.injEq] at hok
         rw [← hok.1]
         exact ⟨rfl, rfl, rfl⟩)
      | simp at hok
  · rw [hg] at hok
    simp only [if_true, noop, Except.ok.injEq, Prod.mk.injEq] at hok
    exact Or.inl ⟨rfl, hok.1.symm⟩

/-- Field version of `enterPrevote_post` for a call at the state's own
round. -/
theorem enterPrevote_post2 (env : Env) (S2 : CoreState) (h : Int)
    (s3 : CoreState) (out3 : List Emission)
    (heq : enterPrevote env S2 h S2.Round = .ok (s3, out3)) :
    s3.Height = S2.Height ∧ s3.Round = S2.Round ∧
      (s3.Step = S2.Step ∨ s3.Step = .PrevoteFetch) := by
  rcases enterPrevote_post env S2 h S2.Round s3 out3 heq with ⟨_, hEq⟩ | ⟨hH, hR, hS⟩
  · rw [hEq]
    exact ⟨rfl, rfl, Or.inl rfl⟩
  · exact ⟨hH, hR, Or.inr hS⟩

/-- A successful `enterPropose` either hit its guard or left the state at
round `r` in step `Propose` or `PrevoteFetch`, with the height unchanged. -/
theorem enterPropose_post (env : Env) (s : CoreState) (h r : Int)
    (s1 : CoreState) (out : List Emission)
    (hok : enterPropose env s h r = .ok (s1, out)) :
    (invalidArgs s h r .Propose = true ∧ s1 = s) ∨
    (s1.Height = s.Height ∧ s1.Round = r ∧
      (s1.Step = .Propose ∨ s1.Step = .PrevoteFetch)) := by
  unfold enterPropose at hok
  cases hg : invalidArgs s h r RoundStepType.Propose
  · rw [hg] at hok
    simp only [Bool.false_eq_true, if_false] at hok
    right
    repeat' split at hok
    all_goals
      first
      | (simp only [Except.ok.injEq, Prod.mk.injEq] at hok
         rw [← hok.1]
         exact ⟨rfl, rfl, Or.inl rfl⟩)
      | (simp at hok
         done)
      | (rename_i s3 out3 heq
         simp only [Except.ok.injEq, Prod.mk.injEq] at hok
         rw [← hok.1]
         obtain ⟨hH, hR, hS⟩ := enterPrevote_post2 env _ h s3 out3 heq
         refine ⟨hH.trans rfl, hR.trans rfl, ?_⟩
         rcases hS with hS | hS
         exact Or.inl (hS.trans rfl)
         exact Or.inr hS)
  · rw [hg] at hok
    simp only [if_true, noop, Except.ok.injEq, Prod.mk.injEq] at hok
    exact Or.inl ⟨rfl, hok.1.symm⟩

/-- A successful `enterNewRound` either hit its guard or left the state at
round `r` in a step other than `NewHeight`, with the height unchanged. -/
theorem enterNewRound_post (env : Env) (s : CoreState) (h r : Int)
    (s1 : CoreState) (out : List Emission)
    (hok : enterNewRound env s h r = .ok (s1, out)) :
    (((s.Height != h) || decide (r < s.Round) ||
        (s.Round == r && s.Step != RoundStepType.NewHeight)) = true ∧ s1 = s) ∨
    (s1.Height = s.Height ∧ s1.Round = r ∧ s1.Step ≠ .NewHeight) := by
  unfold enterNewRound at hok
  cases hg : ((s.Height != h) || decide (r < s.Round) ||
      (s.Round == r && s.Step != RoundStepType.NewHeight))
  · rw [hg] at hok
    simp only [Bool.false_eq_true, if_false] at hok
    right
    cases h0 : (r == (0 : Int))
    · rw [h0] at hok
      simp only [Bool.false_eq_true, if_false] at hok
      rcases enterPropose_post env _ h r s1 out hok with ⟨_, hEq⟩ | ⟨hH, hR, hS⟩
      · rw [hEq]
        exact ⟨rfl, rfl,
          (by decide : RoundStepType.NewRound ≠ RoundStepType.NewHeight)⟩
      · refine ⟨hH, hR, ?_⟩
        rcases hS with hS | hS
        · rw [hS]
          decide
        · rw [hS]
          decide
    · rw [h0] at hok
      simp only [if_true] at hok
      rcases enterPropose_post env _ h r s1 out hok with ⟨_, hEq⟩ | ⟨hH, hR, hS⟩
      · rw [hEq]
        exact ⟨rfl, rfl,
          (by decide : RoundStepType.NewRound ≠ RoundStepType.NewHeight)⟩
      · refine ⟨hH, hR, ?_⟩
        rcases hS with hS | hS
        · rw [hS]
          decide
        · rw [hS]
          decide
  · rw [hg] at hok
    simp only [if_true, noop, Except.ok.injEq, Prod.mk.injEq] at hok
    exact Or.inl ⟨rfl, hok.1.symm⟩

/-- A +2/3 majority in a per-round precommit set implies the round is inside
the tracked window (out-of-window rounds answer with the empty set). -/
theorem precommits_maj_round_nonneg (hvs : HeightVoteSet) (cr : Int)
    (d : ProposedData)
    (hmaj : (hvs.Precommits cr).TwoThirdsMajority = some d) : -1 < cr := by
  unfold HeightVoteSet.Precommits at hmaj
  by_cases hcr : 0 ≤ cr ∧ cr ≤ (hvs.watermark : Int)
  · omega
  · rw [if_neg hcr] at hmaj
    simp [VoteSet.TwoThirdsMajority, VoteSet.empty] at hmaj

/-- A successful `enterCommit` from a positive height either hit its guard,
or stayed at the same height in step `Commit` (no new application state), or
moved to a height different from the argument height. -/
theorem enterCommit_post (env : Env) (s : CoreState) (h cr : Int)
    (s1 : CoreState) (out : List Emission) (hpos : 0 < s.Height)
    (hok : enterCommit env s h cr = .ok (s1, out)) :
    (((s.Height != h) || RoundStepType.ble .Commit s.Step) = true ∧ s1 = s) ∨
    ((s1.Height = s.Height ∧ s1.Step = .Commit) ∨ s1.Height ≠ h) := by
  unfold enterCommit at hok
  cases hg : ((s.Height != h) || RoundStepType.ble .Commit s.Step)
  · rw [hg] at hok
    simp only [Bool.false_eq_true, if_false] at hok
    right
    have hsh : s.Height = h := by
      rcases Bool.or_eq_false_iff.mp hg with ⟨h1, _⟩
      simpa using h1
    match hmaj : (s.Votes.Precommits cr).TwoThirdsMajority with
    | none =>
      rw [hmaj] at hok
      simp at hok
    | some d =>
      have hcr : -1 < cr := precommits_maj_round_nonneg s.Votes cr d hmaj
      rw [hmaj] at hok
      dsimp only [updateRoundStep] at hok
      unfold doCommit at hok
      dsimp only [updateRoundStep] at hok
      unfold VoteSet.MakeCommit at hok
      rw [hmaj] at hok
      dsimp only at hok
      by_cases hd : d = NilData
      · rw [hd] at hok
        simp at hok
      · have hdb : (d == NilData) = false := by
          simp [hd]
        rw [hdb] at hok
        simp only [bne_self_eq_false, Bool.false_eq_true, if_false] at hok
        unfold updateToAppState at hok
        match haps : env.appState with
        | none =>
          rw [haps] at hok
          dsimp only at hok
          simp only [Except.ok.injEq, Prod.mk.injEq] at hok
          left
          rw [← hok.1]
          exact ⟨rfl, rfl⟩
        | some a =>
          rw [haps] at hok
          dsimp only at hok
          have hcrb : decide (-1 < cr) = true := decide_eq_true hcr
          have hposb : decide (0 < s.Height) = true := decide_eq_true hpos
          rw [hcrb, hposb] at hok
          simp only [Bool.true_and, Bool.and_true] at hok
          by_cases hlt : a.LastHeight < s.Height
          · rw [decide_eq_true hlt] at hok
            simp at hok
          · rw [decide_eq_false hlt] at hok
            simp only [Bool.and_false, Bool.false_eq_true, if_false] at hok
            have hhm : (s.Votes.Precommits cr).HasTwoThirdsMajority = true := by
              unfold VoteSet.HasTwoThirdsMajority
              rw [hmaj]
              rfl
            simp only [hhm, if_true, eq_self_iff_true] at hok
            simp only [Except.ok.injEq, Prod.mk.injEq] at hok
            right
            rw [← hok.1]
            show a.LastHeight + 1 ≠ h
            omega
  · rw [hg] at hok
    simp only [if_true, noop, Except.ok.injEq, Prod.mk.injEq] at hok
    exact Or.inl ⟨rfl, hok.1.symm⟩

/-- The shared guard is true whenever the state already sits at round `r` in
a step at or past the target. -/
theorem invalidArgs_true_of (s1 : CoreState) (h r : Int) (t : RoundStepType)
    (hR : s1.Round = r) (hble : t.ble s1.Step = true) :
    invalidArgs s1 h r t = true := by
  unfold invalidArgs
  rw [hR, hble]
  simp

end Core

/-- C8: calling any transition `enterX(h, r)` twice in a row from a state of
positive height leaves the core in the same state (and with the same
effects) as calling it once — the second call always falls to the
precondition no-op. -/
theorem transitions_idempotent (env : Env) (s : CoreState) (h r : Int)
    (hpos : 0 < s.Height) :
    seqT (Core.enterNewRound env s h r)
        (fun t => Core.enterNewRound env t h r) =
      Core.enterNewRound env s h r ∧
    seqT (Core.enterPropose env s h r)
        (fun t => Core.enterPropose env t h r) =
      Core.enterPropose env s h r ∧
    seqT (Core.enterPrevote env s h r)
        (fun t => Core.enterPrevote env t h r) =
      Core.enterPrevote env s h r ∧
    seqT (Core.enterPrevoteWait env s h r)
        (fun t => Core.enterPrevoteWait env t h r) =
      Core.enterPrevoteWait env s h r ∧
    seqT (Core.enterPrecommit env s h r)
        (fun t => Core.enterPrecommit env t h r) =
      Core.enterPrecommit env s h r ∧
    seqT (Core.enterPrecommitWait env s h r)
        (fun t => Core.enterPrecommitWait env t h r) =
      Core.enterPrecommitWait env s h r ∧
    seqT (Core.enterCommit env s h r)
        (fun t => Core.enterCommit env t h r) =
      Core.enterCommit env s h r := by
  refine ⟨?_, ?_, ?_, ?_, ?_, ?_, ?_⟩
  · apply seqT_noop_second
    intro s1 out hok
    rcases Core.enterNewRound_post env s h r s1 out hok with ⟨hgt, hEq⟩ | ⟨_, hR, hS⟩
    · subst hEq
      unfold Core.enterNewRound
      rw [hgt]
      rfl
    · have hgt : ((s1.Height != h) || decide (r < s1.Round) ||
          (s1.Round == r && s1.Step != RoundStepType.NewHeight)) = true := by
        rw [hR]
        simp [hS]
      unfold Core.enterNewRound
      rw [hgt]
      rfl
  · apply seqT_noop_second
    intro s1 out hok
    rcases Core.enterPropose_post env s h r s1 out hok with ⟨hgt, hEq⟩ | ⟨_, hR, hS⟩
    · subst hEq
      unfold Core.enterPropose
      rw [hgt]
      rfl
    · have hgt : Core.invalidArgs s1 h r .Propose = true := by
        apply Core.invalidArgs_true_of s1 h r .Propose hR
        rcases hS with hS | hS
        · rw [hS]
          rfl
        · rw [hS]
          rfl
      unfold Core.enterPropose
      rw [hgt]
      rfl
  · apply seqT_noop_second
    intro s1 out hok
    rcases Core.enterPrevote_post env s h r s1 out hok with ⟨hgt, hEq⟩ | ⟨_, hR, hS⟩
    · subst hEq
      unfold Core.enterPrevote
      rw [hgt]
      rfl
    · have hgt : Core.invalidArgs s1 h r .Prevote = true := by
        apply Core.invalidArgs_true_of s1 h r .Prevote hR
        rw [hS]
        rfl
      unfold Core.enterPrevote
      rw [hgt]
      rfl
  · apply seqT_noop_second
    intro s1 out hok
    rcases Core.enterPrevoteWait_post env s h r s1 out hok with ⟨hgt, hEq⟩ | ⟨_, hR, hS⟩
    · subst hEq
      unfold Core.enterPrevoteWait
      rw [hgt]
      rfl
    · have hgt : Core.invalidArgs s1 h r .PrevoteWait = true := by
        apply Core.invalidArgs_true_of s1 h r .PrevoteWait hR
        rw [hS]
        rfl
      unfold Core.enterPrevoteWait
      rw [hgt]
      rfl
  · apply seqT_noop_second
    intro s1 out hok
    rcases Core.enterPrecommit_post env s h r s1 out hok with ⟨hgt, hEq⟩ | ⟨_, hR, hS⟩
    · subst hEq
      unfold Core.enterPrecommit
      rw [hgt]
      rfl
    · have hgt : Core.invalidArgs s1 h r .Precommit = true := by
        apply Core.invalidArgs_true_of s1 h r .Precommit hR
        rw [hS]
        rfl
      unfold Core.enterPrecommit
      rw [hgt]
      rfl
  · apply seqT_noop_second
    intro s1 out hok
    rcases Core.enterPrecommitWait_post env s h r s1 out hok with ⟨hgt, hEq⟩ | ⟨_, hR, hS⟩
    · subst hEq
      unfold Core.enterPrecommitWait
      rw [hgt]
      rfl
    · have hgt : Core.invalidArgs s1 h r .PrecommitWait = true := by
        apply Core.invalidArgs_true_of s1 h r .PrecommitWait hR
        rw [hS]
        rfl
      unfold Core.enterPrecommitWait
      rw [hgt]
      rfl
  · apply seqT_noop_second
    intro s1 out hok
    rcases Core.enterCommit_post env s h r s1 out hpos hok with ⟨hgt, hEq⟩ | hpost
    · subst hEq
      unfold Core.enterCommit
      rw [hgt]
      rfl
    · have hgt : ((s1.Height != h) || RoundStepType.ble .Commit s1.Step) = true := by
        rcases hpost with ⟨_, hS⟩ | hne
        · rw [hS]
          show ((s1.Height != h) || true) = true
          simp
        · simp [hne]
      unfold Core.enterCommit
      rw [hgt]
      rfl

/-- Witness for C8: double `enterNewRound(1, 0)` from the fresh height-1
state collapses to a single call. -/
theorem transitions_idempotent_witness :
    seqT (Core.enterNewRound envV sBase 1 0)
        (fun t => Core.enterNewRound envV t 1 0) =
      Core.enterNewRound envV sBase 1 0 :=
  (transitions_idempotent envV sBase 1 0 (by decide)).1

/-! ## The lock invariant (C2) -/

/-- A value holds a +2/3 prevote polka in a vote set: its tallied power
strictly exceeds two thirds of the committee power. -/
def hasPolkaFor (vs : VoteSet) (d : ProposedData) : Prop :=
  2 * vs.total < 3 * vs.tally d

/-- The lock invariant: `LockedRound ≥ 0` iff `LockedProposal` is non-nil,
and the locked proposal's value was the +2/3 prevote majority value of some
round `≤ LockedRound` of the current height's vote sets. -/
def lockInv (s : CoreState) : Prop :=
  (0 ≤ s.LockedRound ↔ s.LockedProposal.isSome = true) ∧
  (∀ lp, s.LockedProposal = some lp →
    ∃ pr : Int, 0 ≤ pr ∧ pr ≤ s.LockedRound ∧
      hasPolkaFor (s.Votes.Prevotes pr) lp.proposed)

/-- An unlocked state satisfies the lock invariant. -/
theorem lockInv_unlocked (s1 : CoreState) (hLR : s1.LockedRound = -1)
    (hLP : s1.LockedProposal = none) : lockInv s1 := by
  constructor
  · rw [hLR, hLP]
    simp
  · intro lp hlp
    rw [hLP] at hlp
    exact absurd hlp (by simp)

/-- The lock invariant only depends on the lock fields and the vote sets. -/
theorem lockInv_congr (s s1 : CoreState) (hinv : lockInv s)
    (hLR : s1.LockedRound = s.LockedRound)
    (hLP : s1.LockedProposal = s.LockedProposal)
    (hV : s1.Votes = s.Votes) : lockInv s1 := by
  unfold lockInv
  rw [hLR, hLP, hV]
  exact hinv

namespace VoteSet

/-- The reported +2/3 majority value really holds a polka. -/
theorem TwoThirdsMajority_polka (vs : VoteSet) (d : ProposedData)
    (hmaj : vs.TwoThirdsMajority = some d) : hasPolkaFor vs d := by
  unfold TwoThirdsMajority at hmaj
  rcases Option.map_eq_some'.mp hmaj with ⟨e, hfind, hed⟩
  have hp := List.find?_some hfind
  unfold hasPolkaFor
  rw [← hed]
  simpa using hp

/-- The empty vote set holds no polka. -/
theorem empty_no_polka (c : List (Nat × Nat)) (hh rr : Int) (t : VoteType)
    (d : ProposedData) : ¬ hasPolkaFor (VoteSet.empty c hh rr t) d := by
  unfold hasPolkaFor VoteSet.empty tally
  simp

/-- Adding a vote never destroys an existing polka: the committee (hence the
total power) is fixed and tallies only grow. -/
theorem AddVote_polka_mono (vs : VoteSet) (v : Vote) (d : ProposedData)
    (hp : hasPolkaFor vs d) : hasPolkaFor (vs.AddVote v).1 d := by
  unfold AddVote
  split
  · exact hp
  · split
    · exact hp
    · split
      · -- new voter recorded
        unfold hasPolkaFor tally at hp
        unfold hasPolkaFor
        show 2 * vs.total < 3 * tally
          { vs with votes := (v.address, v.proposed) :: vs.votes } d
        unfold tally
        rw [List.filter_cons]
        by_cases hm : ((v.address, v.proposed).2 == d) = true
        · rw [if_pos hm]
          rw [List.map_cons, List.sum_cons]
          have hsum : ((vs.votes.filter (fun e => e.2 == d)).map
              (fun e => vs.power e.1)).sum =
            ((vs.votes.filter (fun e => e.2 == d)).map
              (fun e => power
                { vs with votes := (v.address, v.proposed) :: vs.votes }
                e.1)).sum := rfl
          omega
        · rw [if_neg hm]
          exact hp
      · split
        · exact hp
        · exact hp

end VoteSet

namespace HeightVoteSet

/-- `AddVote` on the height vote sets preserves every existing prevote
polka. -/
theorem AddVote_prevote_polka_mono (hvs : HeightVoteSet) (v : Vote)
    (pr : Int) (d : ProposedData)
    (hp : hasPolkaFor (hvs.Prevotes pr) d) :
    hasPolkaFor ((hvs.AddVote v).1.Prevotes pr) d := by
  unfold AddVote
  split
  · exact hp
  · match v.vtype with
    | .prevote =>
      dsimp only
      unfold Prevotes at hp ⊢
      dsimp only
      by_cases hrange : 0 ≤ pr ∧ pr ≤ (hvs.watermark : Int)
      · rw [if_pos hrange] at hp ⊢
        by_cases heq : (pr == v.round) = true
        · rw [heq]
          simp only [if_true]
          have hpr : pr = v.round := by
            simpa using heq
          rw [hpr] at hp
          exact VoteSet.AddVote_polka_mono _ v d hp
        · rw [Bool.not_eq_true] at heq
          rw [heq]
          simp only [Bool.false_eq_true, if_false]
          exact hp
      · rw [if_neg hrange] at hp
        exact absurd hp (VoteSet.empty_no_polka _ _ _ _ d)
    | .precommit => exact hp
    | .proposal => exact hp

/-- `SetRound` (which only grows the watermark) preserves every existing
prevote polka. -/
theorem SetRound_prevote_polka_mono (hvs : HeightVoteSet) (r : Int)
    (pr : Int) (d : ProposedData)
    (hp : hasPolkaFor (hvs.Prevotes pr) d) :
    hasPolkaFor ((hvs.SetRound r).Prevotes pr) d := by
  unfold SetRound
  unfold Prevotes at hp ⊢
  by_cases hrange : 0 ≤ pr ∧ pr ≤ (hvs.watermark : Int)
  · rw [if_pos hrange] at hp
    dsimp only
    have hnew : 0 ≤ pr ∧ pr ≤ ((max hvs.watermark r.toNat : Nat) : Int) := by
      refine ⟨hrange.1, le_trans hrange.2 ?_⟩
      exact_mod_cast Nat.le_max_left hvs.watermark r.toNat
    rw [if_pos hnew]
    exact hp
  · rw [if_neg hrange] at hp
    exact absurd hp (VoteSet.empty_no_polka _ _ _ _ d)

end HeightVoteSet

/-- A locked state whose lock value holds a polka at the locked round
satisfies the lock invariant. -/
theorem lockInv_locked (s1 : CoreState) (r : Int) (lp : Vote)
    (hLR : s1.LockedRound = r) (hLP : s1.LockedProposal = some lp)
    (hr : 0 ≤ r)
    (hpol : hasPolkaFor (s1.Votes.Prevotes r) lp.proposed) : lockInv s1 := by
  constructor
  · rw [hLR, hLP]
    simp [hr]
  · intro lp2 hlp2
    rw [hLP] at hlp2
    have hlp2 : lp = lp2 := by
      injection hlp2
    subst hlp2
    refine ⟨r, hr, ?_, hpol⟩
    rw [hLR]

/-- The invariant carried through the transitions: the lock invariant plus a
non-negative current round. -/
def stInv (s : CoreState) : Prop := lockInv s ∧ 0 ≤ s.Round

/-- Adding a vote to the height vote sets preserves the lock invariant: the
tallies only grow. -/
theorem lockInv_addVote (s s2 : CoreState) (v : Vote) (hinv : lockInv s)
    (hLR : s2.LockedRound = s.LockedRound)
    (hLP : s2.LockedProposal = s.LockedProposal)
    (hV : s2.Votes = (s.Votes.AddVote v).1) : lockInv s2 := by
  constructor
  · rw [hLR, hLP]
    exact hinv.1
  · intro lp hlp
    rw [hLP] at hlp
    rcases hinv.2 lp hlp with ⟨pr, hpr0, hprle, hpol⟩
    refine ⟨pr, hpr0, ?_, ?_⟩
    · rw [hLR]
      exact hprle
    · rw [hV]
      exact HeightVoteSet.AddVote_prevote_polka_mono s.Votes v pr _ hpol

namespace Core

/-- A passing shared guard bounds the round argument from below. -/
theorem invalidArgs_false_round (s : CoreState) (h r : Int)
    (t : RoundStepType) (hg : invalidArgs s h r t = false)
    (hr0 : 0 ≤ s.Round) : 0 ≤ r := by
  unfold invalidArgs at hg
  rcases Bool.or_eq_false_iff.mp hg with ⟨h1, _⟩
  rcases Bool.or_eq_false_iff.mp h1 with ⟨_, h2⟩
  have h3 := of_decide_eq_false h2
  omega

/-- `enterPrevote` preserves the lock invariant. -/
theorem enterPrevote_stInv (env : Env) (s : CoreState) (h r : Int)
    (s1 : CoreState) (out : List Emission) (hinv : stInv s)
    (hok : enterPrevote env s h r = .ok (s1, out)) : stInv s1 := by
  unfold enterPrevote at hok
  cases hg : invalidArgs s h r RoundStepType.Prevote
  · have hr : 0 ≤ r := invalidArgs_false_round s h r _ hg hinv.2
    rw [hg] at hok
    simp only [Bool.false_eq_true, if_false, Except.ok.injEq,
      Prod.mk.injEq] at hok
    rw [← hok.1]
    exact ⟨lockInv_congr s _ hinv.1 rfl rfl rfl, hr⟩
  · rw [hg] at hok
    simp only [if_true, noop, Except.ok.injEq, Prod.mk.injEq] at hok
    rw [← hok.1]
    exact hinv

/-- `enterPropose` preserves the lock invariant. -/
theorem enterPropose_stInv (env : Env) (s : CoreState) (h r : Int)
    (s1 : CoreState) (out : List Emission) (hinv : stInv s)
    (hok : enterPropose env s h r = .ok (s1, out)) : stInv s1 := by
  unfold enterPropose at hok
  cases hg : invalidArgs s h r RoundStepType.Propose
  · have hr : 0 ≤ r := invalidArgs_false_round s h r _ hg hinv.2
    rw [hg] at hok
    simp only [Bool.false_eq_true, if_false] at hok
    repeat' split at hok
    all_goals
      first
      | (simp only [Except.ok.injEq, Prod.mk.injEq] at hok
         rw [← hok.1]
         refine ⟨lockInv_congr s _ hinv.1 rfl rfl rfl, ?_⟩
         exact hr)
      | (simp at hok
         done)
      | (rename_i s3 out3 heq
         simp only [Except.ok.injEq, Prod.mk.injEq] at hok
         rw [← hok.1]
         refine enterPrevote_stInv env _ h _ s3 out3 ⟨?_, ?_⟩ heq
         exact lockInv_congr s _ hinv.1 rfl rfl rfl
         exact hr)
  · rw [hg] at hok
    simp only [if_true, noop, Except.ok.injEq, Prod.mk.injEq] at hok
    rw [← hok.1]
    exact hinv

/-- `enterNewRound` preserves the lock invariant (the watermark only
grows). -/
theorem enterNewRound_stInv (env : Env) (s : CoreState) (h r : Int)
    (s1 : CoreState) (out : List Emission) (hinv : stInv s)
    (hok : enterNewRound env s h r = .ok (s1, out)) : stInv s1 := by
  unfold enterNewRound at hok
  cases hg : ((s.Height != h) || decide (r < s.Round) ||
      (s.Round == r && s.Step != RoundStepType.NewHeight))
  · have hr : 0 ≤ r := by
      rcases Bool.or_eq_false_iff.mp hg with ⟨h1, _⟩
      rcases Bool.or_eq_false_iff.mp h1 with ⟨_, h2⟩
      have h3 := of_decide_eq_false h2
      have h4 := hinv.2
      omega
    rw [hg] at hok
    simp only [Bool.false_eq_true, if_false] at hok
    have hinv3 : ∀ (s2 : CoreState), s2.LockedRound = s.LockedRound →
        s2.LockedProposal = s.LockedProposal →
        s2.Votes = s.Votes.SetRound (r + 1) → lockInv s2 := by
      intro s2 hLR hLP hV
      constructor
      · rw [hLR, hLP]
        exact hinv.1.1
      · intro lp hlp
        rw [hLP] at hlp
        rcases hinv.1.2 lp hlp with ⟨pr, hpr0, hprle, hpol⟩
        refine ⟨pr, hpr0, ?_, ?_⟩
        · rw [hLR]
          exact hprle
        · rw [hV]
          exact HeightVoteSet.SetRound_prevote_polka_mono s.Votes (r + 1) pr _ hpol
    cases h0 : (r == (0 : Int))
    · rw [h0] at hok
      simp only [Bool.false_eq_true, if_false] at hok
      refine enterPropose_stInv env _ h r s1 out ⟨?_, ?_⟩ hok
      exact hinv3 _ rfl rfl rfl
      exact hr
    · rw [h0] at hok
      simp only [if_true] at hok
      refine enterPropose_stInv env _ h r s1 out ⟨?_, ?_⟩ hok
      exact hinv3 _ rfl rfl rfl
      exact hr
  · rw [hg] at hok
    simp only [if_true, noop, Except.ok.injEq, Prod.mk.injEq] at hok
    rw [← hok.1]
    exact hinv

/-- `enterPrevoteWait` preserves the lock invariant. -/
theorem enterPrevoteWait_stInv (env : Env) (s : CoreState) (h r : Int)
    (s1 : CoreState) (out : List Emission) (hinv : stInv s)
    (hok : enterPrevoteWait env s h r = .ok (s1, out)) : stInv s1 := by
  rcases enterPrevoteWait_post env s h r s1 out hok with ⟨_, hEq⟩ | ⟨_, hR, _⟩
  · rw [hEq]
    exact hinv
  · have hr : 0 ≤ r := by
      unfold enterPrevoteWait at hok
      cases hg : invalidArgs s h r RoundStepType.PrevoteWait
      · exact invalidArgs_false_round s h r _ hg hinv.2
      · rw [hg] at hok
        simp only [if_true, noop, Except.ok.injEq, Prod.mk.injEq] at hok
        rw [← hok.1] at hR
        rw [← hR]
        exact hinv.2
    refine ⟨?_, by rw [hR]; exact hr⟩
    unfold enterPrevoteWait at hok
    cases hg : invalidArgs s h r RoundStepType.PrevoteWait
    · rw [hg] at hok
      simp only [Bool.false_eq_true, if_false] at hok
      cases hany : (s.Votes.Prevotes r).HasTwoThirdsAny
      · rw [hany] at hok
        simp at hok
      · rw [hany] at hok
        simp only [Bool.not_true, Bool.false_eq_true, if_false,
          Except.ok.injEq, Prod.mk.injEq] at hok
        rw [← hok.1]
        exact lockInv_congr s _ hinv.1 rfl rfl rfl
    · rw [hg] at hok
      simp only [if_true, noop, Except.ok.injEq, Prod.mk.injEq] at hok
      rw [← hok.1]
      exact hinv.1

/-- `enterPrecommitWait` preserves the lock invariant. -/
theorem enterPrecommitWait_stInv (env : Env) (s : CoreState) (h r : Int)
    (s1 : CoreState) (out : List Emission) (hinv : stInv s)
    (hok : enterPrecommitWait env s h r = .ok (s1, out)) : stInv s1 := by
  unfold enterPrecommitWait at hok
  cases hg : invalidArgs s h r RoundStepType.PrecommitWait
  · have hr : 0 ≤ r := invalidArgs_false_round s h r _ hg hinv.2
    rw [hg] at hok
    simp only [Bool.false_eq_true, if_false] at hok
    cases hany : (s.Votes.Precommits r).HasTwoThirdsAny
    · rw [hany] at hok
      simp at hok
    · rw [hany] at hok
      simp only [Bool.not_true, Bool.false_eq_true, if_false,
        Except.ok.injEq, Prod.mk.injEq] at hok
      rw [← hok.1]
      exact ⟨lockInv_congr s _ hinv.1 rfl rfl rfl, hr⟩
  · rw [hg] at hok
    simp only [if_true, noop, Except.ok.injEq, Prod.mk.injEq] at hok
    rw [← hok.1]
    exact hinv

/-- `enterPrecommit` preserves the lock invariant: the no-polka branch does
not touch the lock, the nil-polka branch unlocks, the relock and lock
branches set `LockedRound` to the entered round whose polka was just
observed, and the fallback branch unlocks. -/
theorem enterPrecommit_stInv (env : Env) (s : CoreState) (h r : Int)
    (s1 : CoreState) (out : List Emission) (hinv : stInv s)
    (hok : enterPrecommit env s h r = .ok (s1, out)) : stInv s1 := by
  unfold enterPrecommit at hok
  cases hg : invalidArgs s h r RoundStepType.Precommit
  · have hr : 0 ≤ r := invalidArgs_false_round s h r _ hg hinv.2
    rw [hg] at hok
    simp only [Bool.false_eq_true, if_false] at hok
    match hmaj : (s.Votes.Prevotes r).TwoThirdsMajority with
    | none =>
      rw [hmaj] at hok
      dsimp only at hok
      simp only [Except.ok.injEq, Prod.mk.injEq] at hok
      rw [← hok.1]
      refine ⟨lockInv_congr s _ hinv.1 rfl rfl rfl, ?_⟩
      exact hr
    | some d =>
      have hpolka := VoteSet.TwoThirdsMajority_polka (s.Votes.Prevotes r) d hmaj
      rw [hmaj] at hok
      dsimp only at hok
      cases hpolr : (s.Votes.POLInfo.1 != r)
      · rw [hpolr] at hok
        simp only [Bool.false_eq_true, if_false] at hok
        cases hnil : (d == NilData)
        · -- a polka for a real value
          rw [hnil] at hok
          simp only [Bool.false_eq_true, if_false] at hok
          cases hlpc : s.LockedProposal
          · -- not locked
            rw [hlpc] at hok
            dsimp only at hok
            cases hlr : decide (0 ≤ s.LockedRound)
            · rw [hlr] at hok
              simp only [Bool.false_eq_true, if_false] at hok
              cases hppc : s.Proposal
              · rw [hppc] at hok
                dsimp only at hok
                simp only [Except.ok.injEq, Prod.mk.injEq] at hok
                rw [← hok.1]
                refine ⟨lockInv_unlocked _ rfl rfl, ?_⟩
                exact hr
              · rename_i p
                rw [hppc] at hok
                dsimp only at hok
                cases hlock : (p.proposed == d)
                · rw [hlock] at hok
                  simp only [Bool.false_eq_true, if_false] at hok
                  simp only [Except.ok.injEq, Prod.mk.injEq] at hok
                  rw [← hok.1]
                  refine ⟨lockInv_unlocked _ rfl rfl, ?_⟩
                  exact hr
                · rw [hlock] at hok
                  simp only [if_true] at hok
                  simp only [Except.ok.injEq, Prod.mk.injEq] at hok
                  rw [← hok.1]
                  have heqd : p.proposed = d := by
                    simpa using hlock
                  refine ⟨lockInv_locked _ r p rfl rfl hr ?_, ?_⟩
                  · rw [heqd]
                    exact hpolka
                  · exact hr
            · rw [hlr] at hok
              simp at hok
          · -- locked
            rename_i lp
            rw [hlpc] at hok
            dsimp only at hok
            cases hrel : (decide (0 ≤ s.LockedRound) && (lp.proposed == d))
            · rw [hrel] at hok
              simp only [Bool.false_eq_true, if_false] at hok
              cases hppc : s.Proposal
              · rw [hppc] at hok
                dsimp only at hok
                simp only [Except.ok.injEq, Prod.mk.injEq] at hok
                rw [← hok.1]
                refine ⟨lockInv_unlocked _ rfl rfl, ?_⟩
                exact hr
              · rename_i p
                rw [hppc] at hok
                dsimp only at hok
                cases hlock : (p.proposed == d)
                · rw [hlock] at hok
                  simp only [Bool.false_eq_true, if_false] at hok
                  simp only [Except.ok.injEq, Prod.mk.injEq] at hok
                  rw [← hok.1]
                  refine ⟨lockInv_unlocked _ rfl rfl, ?_⟩
                  exact hr
                · rw [hlock] at hok
                  simp only [if_true] at hok
                  simp only [Except.ok.injEq, Prod.mk.injEq] at hok
                  rw [← hok.1]
                  have heqd : p.proposed = d := by
                    simpa using hlock
                  refine ⟨lockInv_locked _ r p rfl rfl hr ?_, ?_⟩
                  · rw [heqd]
                    exact hpolka
                  · exact hr
            · rw [hrel] at hok
              simp only [if_true] at hok
              simp only [Except.ok.injEq, Prod.mk.injEq] at hok
              rw [← hok.1]
              have heqd : lp.proposed = d := by
                simp only [Bool.and_eq_true, beq_iff_eq] at hrel
                exact hrel.2
              refine ⟨lockInv_locked _ r lp rfl rfl hr ?_, ?_⟩
              · rw [heqd]
                exact hpolka
              · exact hr
        · -- a nil polka
          rw [hnil] at hok
          simp only [if_true] at hok
          cases hlpc : s.LockedProposal
          · rw [hlpc] at hok
            dsimp only at hok
            simp only [Except.ok.injEq, Prod.mk.injEq] at hok
            rw [← hok.1]
            refine ⟨lockInv_congr s _ hinv.1 rfl rfl rfl, ?_⟩
            exact hr
          · rw [hlpc] at hok
            dsimp only at hok
            simp only [Except.ok.injEq, Prod.mk.injEq] at hok
            rw [← hok.1]
            refine ⟨lockInv_unlocked _ rfl rfl, ?_⟩
            exact hr
      · rw [hpolr] at hok
        simp at hok
  · rw [hg] at hok
    simp only [if_true, noop, Except.ok.injEq, Prod.mk.injEq] at hok
    rw [← hok.1]
    exact hinv

/-- `updateToAppState` preserves the lock invariant: it either leaves the
state alone or fully resets the lock and the round. -/
theorem updateToAppState_stInv (env : Env) (s : CoreState)
    (aps : Option AppState) (t : CoreState) (hinv : stInv s)
    (hok : updateToAppState env s aps = .ok t) : stInv t := by
  cases aps with
  | none =>
    unfold updateToAppState at hok
    simp only [Except.ok.injEq] at hok
    rw [← hok]
    exact hinv
  | some a =>
    unfold updateToAppState at hok
    dsimp only at hok
    repeat' split at hok
    all_goals first
    | (simp at hok
       done)
    | (simp only [Except.ok.injEq] at hok
       rw [← hok]
       exact ⟨lockInv_unlocked _ rfl rfl, le_refl 0⟩)

/-- `doCommit` preserves the lock invariant. -/
theorem doCommit_stInv (env : Env) (s : CoreState) (d : ProposedData)
    (t : CoreState) (out : List Emission) (hinv : stInv s)
    (hok : doCommit env s d = .ok (t, out)) : stInv t := by
  unfold doCommit at hok
  match hmc : (s.Votes.Precommits s.CommitRound).MakeCommit with
  | none =>
    rw [hmc] at hok
    simp at hok
  | some records0 =>
    rw [hmc] at hok
    dsimp only at hok
    cases hne : (d != records0.proposedData)
    · rw [hne] at hok
      simp only [Bool.false_eq_true, if_false] at hok
      match hup : updateToAppState env s env.appState with
      | .error e =>
        rw [hup] at hok
        simp at hok
      | .ok t0 =>
        rw [hup] at hok
        dsimp only at hok
        simp only [Except.ok.injEq, Prod.mk.injEq] at hok
        rw [← hok.1]
        have ht0 := updateToAppState_stInv env s env.appState t0 hinv hup
        refine ⟨lockInv_congr t0 _ ht0.1 rfl rfl rfl, ?_⟩
        exact ht0.2
    · rw [hne] at hok
      simp at hok

/-- `enterCommit` preserves the lock invariant. -/
theorem enterCommit_stInv (env : Env) (s : CoreState) (h cr : Int)
    (t : CoreState) (out : List Emission) (hinv : stInv s)
    (hok : enterCommit env s h cr = .ok (t, out)) : stInv t := by
  unfold enterCommit at hok
  cases hg : ((s.Height != h) || RoundStepType.ble .Commit s.Step)
  · rw [hg] at hok
    simp only [Bool.false_eq_true, if_false] at hok
    match hmaj : (s.Votes.Precommits cr).TwoThirdsMajority with
    | none =>
      rw [hmaj] at hok
      simp at hok
    | some maj23 =>
      rw [hmaj] at hok
      dsimp only at hok
      refine doCommit_stInv env _ maj23 t out ⟨?_, ?_⟩ hok
      · exact lockInv_congr s _ hinv.1 rfl rfl rfl
      · exact hinv.2
  · rw [hg] at hok
    simp only [if_true, noop, Except.ok.injEq, Prod.mk.injEq] at hok
    rw [← hok.1]
    exact hinv

/-- An invariant-preservation rule for `seqT`. -/
theorem seqT_stInv (x : TRes) (f : CoreState → TRes) (t2 : CoreState)
    (out : List Emission)
    (hx : ∀ t o, x = .ok (t, o) → stInv t)
    (hf : ∀ t, stInv t → ∀ u o2, f t = .ok (u, o2) → stInv u)
    (hok : seqT x f = .ok (t2, out)) : stInv t2 := by
  unfold seqT at hok
  rcases x with e | ⟨t, o⟩
  · simp at hok
  · dsimp only at hok
    match hfe : f t with
    | .error e =>
      rw [hfe] at hok
      simp at hok
    | .ok (u, o2) =>
      rw [hfe] at hok
      dsimp only at hok
      simp only [Except.ok.injEq, Prod.mk.injEq] at hok
      rw [← hok.1]
      exact hf t (hx t o rfl) u o2 hfe

/-- `defaultSetProposal` preserves the lock invariant: it either leaves the
state alone, or records the proposal (which the lock invariant ignores) and
enters `Prevote`. -/
theorem defaultSetProposal_stInv (env : Env) (s : CoreState) (p : Vote)
    (t : CoreState) (out : List Emission) (err : Option BftError)
    (hinv : stInv s)
    (hok : defaultSetProposal env s p = .ok (t, out, err)) : stInv t := by
  unfold defaultSetProposal at hok
  dsimp only at hok
  repeat' split at hok
  all_goals first
  | (simp at hok
     done)
  | (simp only [Except.ok.injEq, Prod.mk.injEq] at hok
     rw [← hok.1]
     exact hinv)
  | (rename_i s2 out2 heq
     simp only [Except.ok.injEq, Prod.mk.injEq] at hok
     rw [← hok.1]
     refine enterPrevote_stInv env _ _ _ s2 out2 ⟨?_, ?_⟩ heq
     exact lockInv_congr s _ hinv.1 rfl rfl rfl
     exact hinv.2)

/-- The post-add dispatch of the prevote case of `addVote` preserves the
lock invariant, whatever state the polka/pruning step produced. -/
theorem prevoteNext_stInv (env : Env) (s2 : CoreState) (pvs : VoteSet)
    (vr : Int) (s3 : CoreState) (out3 : List Emission) (hs2 : stInv s2)
    (heq : (if decide (s2.Round < vr) && pvs.HasTwoThirdsAny then
        enterNewRound env s2 s2.Height vr
      else if (s2.Round == vr) && RoundStepType.ble .Prevote s2.Step then
        if pvs.TwoThirdsMajority.isSome then
          enterPrecommit env s2 s2.Height vr
        else if pvs.HasTwoThirdsAny then
          enterPrevoteWait env s2 s2.Height vr
        else noop s2
      else if RoundStepType.blt s2.Step .Prevote then
        match s2.Proposal with
        | some _ => enterPrevote env s2 s2.Height s2.Round
        | none => noop s2
      else noop s2) = .ok (s3, out3)) : stInv s3 := by
  split at heq
  · exact enterNewRound_stInv env _ _ _ s3 out3 hs2 heq
  · split at heq
    · split at heq
      · exact enterPrecommit_stInv env _ _ _ s3 out3 hs2 heq
      · split at heq
        · exact enterPrevoteWait_stInv env _ _ _ s3 out3 hs2 heq
        · simp only [noop, Except.ok.injEq, Prod.mk.injEq] at heq
          rw [← heq.1]
          exact hs2
    · split at heq
      · split at heq
        · exact enterPrevote_stInv env _ _ _ s3 out3 hs2 heq
        · simp only [noop, Except.ok.injEq, Prod.mk.injEq] at heq
          rw [← heq.1]
          exact hs2
      · simp only [noop, Except.ok.injEq, Prod.mk.injEq] at heq
        rw [← heq.1]
        exact hs2

/-- `addVote` preserves the lock invariant through every fan-out path:
straggler precommits, the proposal delegation, and the prevote/precommit
post-add triggers (including the unlock on a newer polka for another
value). -/
theorem addVote_stInv (env : Env) (s : CoreState) (v : Vote)
    (r : AddVoteRes) (hinv : stInv s)
    (hok : addVote env s v = .ok r) : stInv r.state := by
  unfold addVote at hok
  cases hstr : (v.height + 1 == s.Height)
  · rw [hstr] at hok
    simp only [Bool.false_eq_true, if_false] at hok
    cases hneq : (v.height != s.Height)
    · rw [hneq] at hok
      simp only [Bool.false_eq_true, if_false] at hok
      cases hprop : (v.vtype == VoteType.proposal)
      · rw [hprop] at hok
        simp only [Bool.false_eq_true, if_false] at hok
        dsimp only at hok
        have hs1 : stInv { s with Votes := (s.Votes.AddVote v).1 } := by
          refine ⟨lockInv_addVote s _ v hinv.1 rfl rfl rfl, ?_⟩
          exact hinv.2
        cases hadd : (!(s.Votes.AddVote v).2.1)
        · rw [hadd] at hok
          simp only [Bool.false_eq_true, if_false] at hok
          match hvt : v.vtype with
          | .proposal =>
            rw [hvt] at hok
            simp at hok
          | .prevote =>
            rw [hvt] at hok
            dsimp only at hok
            have h2 : stInv { s with Votes := (s.Votes.AddVote v).1, LockedRound := -1, LockedProposal := none } := by
              refine ⟨lockInv_unlocked _ rfl rfl, ?_⟩
              exact hinv.2
            have h3 : stInv { s with Votes := (s.Votes.AddVote v).1, Proposal := none } := by
              refine ⟨lockInv_addVote s _ v hinv.1 rfl rfl rfl, ?_⟩
              exact hinv.2
            have h4 : stInv { s with Votes := (s.Votes.AddVote v).1, LockedRound := -1, LockedProposal := none, Proposal := none } := by
              refine ⟨lockInv_unlocked _ rfl rfl, ?_⟩
              exact hinv.2
            split at hok
            · simp at hok
            · rename_i s3 out3 heq
              simp only [Except.ok.injEq] at hok
              rw [← hok]
              show stInv s3
              refine prevoteNext_stInv env _ _ v.round s3 out3 ?_ heq
              match hmaj : ((s.Votes.AddVote v).1.Prevotes v.round).TwoThirdsMajority with
              | none =>
                dsimp only
                exact hs1
              | some d =>
                dsimp only
                match hlpc : s.LockedProposal with
                | none =>
                  dsimp only
                  rw [hlpc] at hs1 h3
                  cases hcnd : (d != NilData && (v.round == s.Round))
                  · simp only [Bool.false_eq_true, if_false]
                    exact hs1
                  · simp only [if_true]
                    match hpp : s.Proposal with
                    | none =>
                      dsimp only
                      rw [hpp] at hs1
                      exact hs1
                    | some p =>
                      dsimp only
                      cases hpd : (p.proposed != d)
                      · simp only [Bool.false_eq_true, if_false]
                        rw [hpp] at hs1
                        exact hs1
                      · simp only [if_true]
                        exact h3
                | some lp =>
                  dsimp only
                  rw [hlpc] at hs1 h3
                  cases hul : (decide (s.LockedRound < v.round) && (lp.proposed != d))
                  · simp only [Bool.false_eq_true, if_false]
                    cases hcnd : (d != NilData && (v.round == s.Round))
                    · simp only [Bool.false_eq_true, if_false]
                      exact hs1
                    · simp only [if_true]
                      match hpp : s.Proposal with
                      | none =>
                        dsimp only
                        rw [hpp] at hs1
                        exact hs1
                      | some p =>
                        dsimp only
                        cases hpd : (p.proposed != d)
                        · simp only [Bool.false_eq_true, if_false]
                          rw [hpp] at hs1
                          exact hs1
                        · simp only [if_true]
                          exact h3
                  · simp only [if_true]
                    cases hcnd : (d != NilData && (v.round == s.Round))
                    · simp only [Bool.false_eq_true, if_false]
                      exact h2
                    · simp only [if_true]
                      match hpp : s.Proposal with
                      | none =>
                        dsimp only
                        rw [hpp] at h2
                        exact h2
                      | some p =>
                        dsimp only
                        cases hpd : (p.proposed != d)
                        · simp only [Bool.false_eq_true, if_false]
                          rw [hpp] at h2
                          exact h2
                        · simp only [if_true]
                          exact h4
          | .precommit =>
            rw [hvt] at hok
            dsimp only at hok
            split at hok
            · simp at hok
            · rename_i s3 out3 heq
              simp only [Except.ok.injEq] at hok
              rw [← hok]
              show stInv s3
              split at heq
              · refine seqT_stInv _ _ s3 out3 ?_ ?_ heq
                · intro t o hto
                  refine seqT_stInv _ _ t o ?_ ?_ hto
                  · intro u o2 hu
                    refine seqT_stInv _ _ u o2 ?_ ?_ hu
                    · intro w o3 hw
                      exact enterNewRound_stInv env _ _ _ w o3 hs1 hw
                    · intro w hsw u2 o4 hu2
                      exact enterPrecommit_stInv env _ _ _ u2 o4 hsw hu2
                  · intro u hsu w o3 hw
                    exact enterCommit_stInv env _ _ _ w o3 hsu hw
                · intro u hsu w o3 hw
                  split at hw
                  · exact enterNewRound_stInv env _ _ 0 w o3 hsu hw
                  · simp only [noop, Except.ok.injEq, Prod.mk.injEq] at hw
                    rw [← hw.1]
                    exact hsu
              · split at heq
                · refine seqT_stInv _ _ s3 out3 ?_ ?_ heq
                  · intro t o hto
                    exact enterNewRound_stInv env _ _ _ t o hs1 hto
                  · intro t hst u o2 hu
                    exact enterPrecommitWait_stInv env _ _ _ u o2 hst hu
                · simp only [noop, Except.ok.injEq, Prod.mk.injEq] at heq
                  rw [← heq.1]
                  exact hs1
        · rw [hadd] at hok
          simp only [if_true] at hok
          simp only [Except.ok.injEq] at hok
          rw [← hok]
          exact hs1
      · rw [hprop] at hok
        simp only [if_true] at hok
        match hds : defaultSetProposal env s v with
        | .error e =>
          rw [hds] at hok
          simp at hok
        | .ok (t, out, err) =>
          rw [hds] at hok
          dsimp only at hok
          simp only [Except.ok.injEq] at hok
          rw [← hok]
          exact defaultSetProposal_stInv env s v t out err hinv hds
    · rw [hneq] at hok
      simp only [if_true] at hok
      simp only [Except.ok.injEq] at hok
      rw [← hok]
      exact hinv
  · rw [hstr] at hok
    simp only [if_true] at hok
    cases hlc : s.LastCommit
    · rw [hlc] at hok
      dsimp only at hok
      simp only [Except.ok.injEq] at hok
      rw [← hok]
      exact hinv
    · rename_i lc
      rw [hlc] at hok
      dsimp only at hok
      have hlcInv : stInv { s with LastCommit := some (lc.AddVote v).1 } := by
        refine ⟨lockInv_congr s _ hinv.1 rfl rfl rfl, ?_⟩
        exact hinv.2
      repeat' split at hok
      all_goals first
      | (simp at hok
         done)
      | (simp only [Except.ok.injEq] at hok
         rw [← hok]
         first | exact hinv | exact hlcInv)
      | (rename_i s3 out3 heq
         simp only [Except.ok.injEq] at hok
         rw [← hok]
         show stInv s3
         exact enterNewRound_stInv env _ _ 0 s3 out3 hlcInv heq)

/-- C2: the states reachable between transitions satisfy the lock
invariant — `LockedRound ≥ 0` iff `LockedProposal` is non-nil, and a locked
value carries a +2/3 prevote polka of some round `≤ LockedRound` of the
current height — and every operation that touches the lock
(`enterPrecommit`, `addVote` with its unlock-on-newer-polka, and
`updateToAppState`) preserves it. -/
theorem lock_invariant_preserved (env : Env) (s : CoreState)
    (hinv : stInv s) :
    (∀ h r t out, enterPrecommit env s h r = .ok (t, out) → stInv t) ∧
    (∀ v r1, addVote env s v = .ok r1 → stInv r1.state) ∧
    (∀ aps t, updateToAppState env s aps = .ok t → stInv t) := by
  refine ⟨?_, ?_, ?_⟩
  · intro h r t out hok
    exact enterPrecommit_stInv env s h r t out hinv hok
  · intro v r1 hok
    exact addVote_stInv env s v r1 hinv hok
  · intro aps t hok
    exact updateToAppState_stInv env s aps t hinv hok

/-- Witness for C2 at the fresh height-1 state, which is unlocked and at
round 0. -/
theorem lock_invariant_preserved_witness :
    stInv sBase ∧
    ((∀ h r t out, enterPrecommit envV sBase h r = .ok (t, out) → stInv t) ∧
     (∀ v r1, addVote envV sBase v = .ok r1 → stInv r1.state) ∧
     (∀ aps t, updateToAppState envV sBase aps = .ok t → stInv t)) := by
  have hinv : stInv sBase := by
    refine ⟨lockInv_unlocked sBase rfl rfl, ?_⟩
    decide
  exact ⟨hinv, lock_invariant_preserved envV sBase hinv⟩

end Core

end Gobft
